import Mathlib

/-!
Verification of the word-lookup core of the Lexindex web backend
(`src/app.py`): the dictionary/thesaurus response parsers, the audio-URL
resolver, the lookup orchestrator and its cache, the quiz-answer checker
and the favorites collection.

The Python code is shallowly embedded.  JSON values (the shapes returned by
`response.json()`) are the inductive type `JSON`; Python operations that can
raise (`x[k]`, `"k" in x`, iteration, `.replace` on a non-string, ...)
return `Except Unit _`, where `.error ()` stands for a raised exception.
Python strings are Lean `String`s; the ASCII-level behaviour of `lower`,
`upper`, `strip`, `title`, `replace` and `int()` is reimplemented below so
that proofs can compute.  Remote HTTP calls are oracles passed in as values
of `HttpResult`.
-/

/-- A JSON value, as produced by `response.json()` in `src/app.py`.
Numbers are modelled as integers (no claim involves fractional values). -/
inductive JSON where
  | null : JSON
  | bool : Bool → JSON
  | num : Int → JSON
  | str : String → JSON
  | arr : List JSON → JSON
  | obj : List (String × JSON) → JSON

mutual

/-- Structural equality of JSON values (Python `==` on parsed JSON). -/
def beqJSON : JSON → JSON → Bool
  | .null, .null => true
  | .bool a, .bool b => a == b
  | .num a, .num b => a == b
  | .str a, .str b => a == b
  | .arr a, .arr b => beqJSONList a b
  | .obj a, .obj b => beqJSONFields a b
  | _, _ => false

def beqJSONList : List JSON → List JSON → Bool
  | [], [] => true
  | x :: xs, y :: ys => beqJSON x y && beqJSONList xs ys
  | _, _ => false

def beqJSONFields : List (String × JSON) → List (String × JSON) → Bool
  | [], [] => true
  | (k, v) :: xs, (l, w) :: ys => k == l && beqJSON v w && beqJSONFields xs ys
  | _, _ => false

end

instance : BEq JSON := ⟨beqJSON⟩

/-- True when `c` is an ASCII decimal digit (code 48..57). -/
def pyIsDigit (c : Char) : Bool := 48 ≤ c.toNat && c.toNat ≤ 57

/-- True when `c` is one of the characters Python's `str.strip()` removes by default
(space, tab, newline, carriage return, vertical tab, form feed). -/
def pyIsSpace (c : Char) : Bool :=
  c.toNat == 32 || c.toNat == 9 || c.toNat == 10 || c.toNat == 13 ||
  c.toNat == 11 || c.toNat == 12

/-- ASCII lowering of one character (Python `str.lower`, ASCII range). -/
def pyLowerChar (c : Char) : Char :=
  if 65 ≤ c.toNat && c.toNat ≤ 90 then Char.ofNat (c.toNat + 32) else c

/-- ASCII uppering of one character (Python `str.upper`, ASCII range). -/
def pyUpperChar (c : Char) : Char :=
  if 97 ≤ c.toNat && c.toNat ≤ 122 then Char.ofNat (c.toNat - 32) else c

/-- True when `c` is an ASCII letter (the "cased" characters `str.title` reacts to,
restricted to ASCII). -/
def pyIsAlpha (c : Char) : Bool :=
  (65 ≤ c.toNat && c.toNat ≤ 90) || (97 ≤ c.toNat && c.toNat ≤ 122)

def pyLower (s : String) : String := ⟨s.data.map pyLowerChar⟩

def pyUpper (s : String) : String := ⟨s.data.map pyUpperChar⟩

/-- Python `str.strip()` on a character list: drop leading and trailing
whitespace. -/
def pyStripChars (l : List Char) : List Char :=
  ((l.dropWhile pyIsSpace).reverse.dropWhile pyIsSpace).reverse

def pyStrip (s : String) : String := ⟨pyStripChars s.data⟩

/-- One step of Python `str.title()`: a letter following a non-letter is
uppercased, a letter following a letter is lowercased. `prevAlpha` records
whether the previous character was a letter. -/
def pyTitleChars : List Char → Bool → List Char
  | [], _ => []
  | c :: rest, prevAlpha =>
    (if pyIsAlpha c then (if prevAlpha then pyLowerChar c else pyUpperChar c) else c)
      :: pyTitleChars rest (pyIsAlpha c)

def pyTitle (s : String) : String := ⟨pyTitleChars s.data false⟩

/-- Python `s.replace(pat, "")` scanning: at `skip+1` we are inside an
occurrence already removed and just drop the character.  At `skip = 0`, a
match of `pat` at the current position removes it (and schedules the
remaining `pat.length - 1` characters to be dropped); otherwise the
character is kept.  Matches are found left to right and do not overlap,
exactly as in CPython. -/
def pyRepGo (pat : List Char) : List Char → Nat → List Char
  | [], _ => []
  | _ :: rest, Nat.succ skip => pyRepGo pat rest skip
  | c :: rest, 0 =>
    if pat.isPrefixOf (c :: rest) then pyRepGo pat rest (pat.length - 1)
    else c :: pyRepGo pat rest 0

/-- Python `s.replace(pat, "")` on character lists (`"x".replace("", "")`
returns `"x"`, hence the empty-pattern guard). -/
def pyReplaceL (s pat : List Char) : List Char :=
  if pat.isEmpty then s else pyRepGo pat s 0

def pyReplaceS (s pat : String) : String := ⟨pyReplaceL s.data pat.data⟩

/-- Does `pat` occur as a contiguous substring of `s`? -/
def occursIn (pat : List Char) : List Char → Bool
  | [] => pat.isEmpty
  | c :: rest => pat.isPrefixOf (c :: rest) || occursIn pat rest

/-- First value bound to key `k` in a JSON object's field list (Python dicts
have unique keys; association lists model them with first-match lookup). -/
def lookupField (f : List (String × JSON)) (k : String) : Option JSON :=
  (f.find? (fun kv => kv.1 == k)).map (·.2)

mutual

/-- Python `repr()` of a parsed-JSON value, ASCII approximation (no escape
handling inside strings); only reached by inputs no claim exercises. -/
def pyRepr : JSON → String
  | .null => "None"
  | .bool b => if b then "True" else "False"
  | .num n => toString n
  | .str s => "\x27" ++ s ++ "\x27"
  | .arr xs => "[" ++ pyReprList xs ++ "]"
  | .obj f => "\x7b" ++ pyReprFields f ++ "\x7d"

def pyReprList : List JSON → String
  | [] => ""
  | [x] => pyRepr x
  | x :: xs => pyRepr x ++ ", " ++ pyReprList xs

def pyReprFields : List (String × JSON) → String
  | [] => ""
  | [(k, v)] => "\x27" ++ k ++ "\x27: " ++ pyRepr v
  | (k, v) :: xs => "\x27" ++ k ++ "\x27: " ++ pyRepr v ++ ", " ++ pyReprFields xs

end

/-- Python `str()` of a parsed-JSON value, as used by f-string interpolation. -/
def pyStrOf : JSON → String
  | .str s => s
  | .null => "None"
  | .bool b => if b then "True" else "False"
  | .num n => toString n
  | .arr xs => pyRepr (.arr xs)
  | .obj f => pyRepr (.obj f)

/-- Python truthiness of a parsed-JSON value. -/
def pyFalsy : JSON → Bool
  | .null => true
  | .bool b => !b
  | .num n => n == 0
  | .str s => s.isEmpty
  | .arr xs => xs.isEmpty
  | .obj f => f.isEmpty

/-- True when `pat` occurs as a substring of the list (Python `k in s` for strings). -/
def strHasSub (pat : List Char) : List Char → Bool
  | [] => pat.isEmpty
  | c :: rest => pat.isPrefixOf (c :: rest) || strHasSub pat rest

/-- Python membership `k in x` for a string key: key lookup on a dict,
element equality on a list, substring test on a string; a `TypeError` on
any other value. -/
def pyMem (k : String) : JSON → Except Unit Bool
  | .obj f => .ok (f.any (fun kv => kv.1 == k))
  | .arr xs => .ok (xs.any (fun x => x == JSON.str k))
  | .str s => .ok (strHasSub k.data s.data)
  | _ => .error ()

/-- Python subscription `x[k]` with a string key: only dicts accept it
(`KeyError` when the key is missing, `TypeError` on every other value). -/
def pyGetItem (x : JSON) (k : String) : Except Unit JSON :=
  match x with
  | .obj f => match lookupField f k with
    | some v => .ok v
    | none => .error ()
  | _ => .error ()

/-- Python subscription `x[i]` with a non-negative integer index: lists and
strings accept it within bounds (`IndexError` otherwise, `TypeError` on
other values); a string yields a one-character string. -/
def pyIndex (x : JSON) (i : Nat) : Except Unit JSON :=
  match x with
  | .arr xs => match xs.get? i with
    | some v => .ok v
    | none => .error ()
  | .str s => match s.data.get? i with
    | some c => .ok (.str ⟨[c]⟩)
    | none => .error ()
  | _ => .error ()

/-- Python `x.get(k, d)`: only dicts have `.get` (`AttributeError`
otherwise). -/
def pyDictGet (x : JSON) (k : String) (d : JSON) : Except Unit JSON :=
  match x with
  | .obj f => .ok ((lookupField f k).getD d)
  | _ => .error ()

/-- Python iteration `for v in x`: a list yields its elements, a string its
characters (as one-character strings), a dict its keys; `TypeError`
otherwise. -/
def pyIter : JSON → Except Unit (List JSON)
  | .arr xs => .ok xs
  | .str s => .ok (s.data.map (fun c => .str ⟨[c]⟩))
  | .obj f => .ok (f.map (fun kv => .str kv.1))
  | _ => .error ()

/-- True when `x` is a JSON string. -/
def isStrB : JSON → Bool
  | .str _ => true
  | _ => false

/-- A value a Python string method is about to be called on: any non-string
raises `AttributeError`. -/
def asStr : JSON → Except Unit String
  | .str s => .ok s
  | _ => .error ()

/-! ## WebAudioManager (src/app.py lines 36-81) -/

def base_audio_url : String := "https://media.merriam-webster.com/audio/prons/en/us/mp3/"

/-- The single-character prefixes of `filename.startswith(('0',...,'9'))`. -/
def digitPrefixChars : List Char := ['0', '1', '2', '3', '4', '5', '6', '7', '8', '9']

/-- The single-character prefixes of `filename.startswith(('_','.','!','?',','))`. -/
def bixPrefixChars : List Char := ['_', '.', '!', '?', ',']

/-- Embeds `WebAudioManager.get_audio_subdirectory` (lines 68-81).  A
`startswith` against a tuple of one-character strings is a test on the
first character; `filename[0].lower()` is the lowercased first character
as a one-character string. -/
def get_audio_subdirectory (filename : String) : String :=
  match filename.data with
  | [] => "bix"
  | c :: rest =>
    if c ∈ digitPrefixChars then "number"
    else if c ∈ bixPrefixChars then "bix"
    else if ['g', 'g'].isPrefixOf (c :: rest) then "gg"
    else ⟨[pyLowerChar c]⟩

/-- The audio URL built at line 56:
`f"{base}{subdirectory}/{filename}.mp3"`. -/
def mkAudioUrl (filename : String) : String :=
  base_audio_url ++ get_audio_subdirectory filename ++ "/" ++ filename ++ ".mp3"

/-- One entry of the `audio_files` list built at lines 58-63. -/
structure AudioInfo where
  url : String
  filename : String
  pronunciation : JSON
  entry_id : JSON

/-- The body of the `for prs in entry["hwi"]["prs"]` loop of
`extract_audio_info_from_api_response` (lines 51-64), for one `prs`. -/
def audioPrsLoop : List JSON → JSON → Except Unit (List AudioInfo)
  | [], _ => .ok []
  | p :: rest, entry => do
    let hasSound ← pyMem "sound" p
    if hasSound then
      let sound ← pyGetItem p "sound"
      let hasAudio ← pyMem "audio" sound
      if hasAudio then
        let audio ← pyGetItem sound "audio"
        if pyFalsy audio then audioPrsLoop rest entry
        else match audio with
          | .str f => do
            -- get_audio_subdirectory and the f-string need a str;
            -- a truthy non-string raises at `.startswith`.
            let mw ← pyDictGet p "mw" (.str "")
            let meta ← pyDictGet entry "meta" (.obj [])
            let eid ← pyDictGet meta "id" (.str "")
            let tail ← audioPrsLoop rest entry
            pure (⟨mkAudioUrl f, f, mw, eid⟩ :: tail)
          | _ => .error ()
      else audioPrsLoop rest entry
    else audioPrsLoop rest entry

/-- The per-entry body of `extract_audio_info_from_api_response`
(lines 46-64): non-dict entries are skipped. -/
def entryAudio (entry : JSON) : Except Unit (List AudioInfo) :=
  match entry with
  | .obj _ => do
    let hasHwi ← pyMem "hwi" entry
    if hasHwi then
      let hwi ← pyGetItem entry "hwi"
      let hasPrs ← pyMem "prs" hwi
      if hasPrs then
        let prsv ← pyGetItem hwi "prs"
        let items ← pyIter prsv
        audioPrsLoop items entry
      else pure []
    else pure []
  | _ => pure []

def audioEntriesLoop : List JSON → Except Unit (List AudioInfo)
  | [] => .ok []
  | e :: rest => do
    let a ← entryAudio e
    let tail ← audioEntriesLoop rest
    pure (a ++ tail)

/-- Embeds `WebAudioManager.extract_audio_info_from_api_response` (lines 40-66),
called by the dictionary parser on the already-type-checked response list
(so only the emptiness half of its guard can fire). -/
def extract_audio_info_from_api_response (data : List JSON) : Except Unit (List AudioInfo) :=
  match data with
  | [] => .ok []
  | _ => audioEntriesLoop data

/-! ## Tag stripping (the per-field token removal of
`process_dictionary_response`, lines 192-194, 208-210, 216-218) -/

/-- The loop `for tag in tags: text = text.replace(tag, "")` followed by
`text.strip()`, on character lists. -/
def stripTagsL (tags : List (List Char)) (text : List Char) : List Char :=
  pyStripChars (tags.foldl pyReplaceL text)

def stripTagsS (tags : List String) (s : String) : String :=
  ⟨stripTagsL (tags.map String.data) s.data⟩

/-- The etymology token set (line 192). -/
def etymology_tags : List String := ["\x7bit\x7d", "\x7b/it\x7d", "\x7bet_link|", "|\x7d"]

/-- The definition token set (line 208). -/
def definition_tags : List String := ["\x7bbc\x7d", "\x7bsx|", "|\x7d", "\x7ba_link|", "\x7d"]

/-- The example token set (line 216). -/
def example_tags : List String := ["\x7bwi\x7d", "\x7b/wi\x7d", "\x7bit\x7d", "\x7b/it\x7d"]

/-! ## WebAPIManager.process_dictionary_response (lines 154-240) -/

/-- The `entry_data` record built per entry (lines 164-171).
`part_of_speech` is copied from `entry["fl"]` without any string method, so
it stays an arbitrary JSON value; `definitions` receives stripped strings
and raw `shortdef` items, so its elements are JSON values too. -/
structure EntryData where
  headword : String
  part_of_speech : JSON
  pronunciation : String
  etymology : String
  definitions : List JSON
  examples : List String

/-- Lines 173-174 (shared verbatim with the thesaurus parser, lines
256-257): `entry["meta"]["id"].split(":")[0].title()` guarded by the two
membership tests. -/
def headwordStage (entry : JSON) : Except Unit String := do
  let hasMeta ← pyMem "meta" entry
  if hasMeta then
    let meta ← pyGetItem entry "meta"
    let hasId ← pyMem "id" meta
    if hasId then
      let idv ← pyGetItem meta "id"
      match idv with
      | .str s => pure (pyTitle ⟨s.data.takeWhile (fun c => !(c == ':'))⟩)
      | _ => .error ()
    else pure ""
  else pure ""

/-- Lines 176-177: `entry_data["part_of_speech"] = entry["fl"]`. -/
def flStage (entry : JSON) : Except Unit JSON := do
  let hasFl ← pyMem "fl" entry
  if hasFl then pyGetItem entry "fl" else pure (.str "")

/-- The `for prs in entry["hwi"]["prs"]` loop of lines 181-183. -/
def pronLoop : List JSON → Except Unit (List String)
  | [] => .ok []
  | p :: rest => do
    let hasMw ← pyMem "mw" p
    if hasMw then
      let mw ← pyGetItem p "mw"
      let tail ← pronLoop rest
      pure (("/" ++ pyStrOf mw ++ "/") :: tail)
    else pronLoop rest

/-- Lines 179-184: pronunciation is the comma-join of the slash-wrapped
`mw` transcriptions. -/
def pronStage (entry : JSON) : Except Unit String := do
  let hasHwi ← pyMem "hwi" entry
  if hasHwi then
    let hwi ← pyGetItem entry "hwi"
    let hasPrs ← pyMem "prs" hwi
    if hasPrs then
      let prsv ← pyGetItem hwi "prs"
      let items ← pyIter prsv
      let ps ← pronLoop items
      pure (String.intercalate ", " ps)
    else pure ""
  else pure ""

/-- The `for et_item in entry["et"]` loop of lines 188-194: only lists of
length > 1 tagged `"text"` contribute; their payload must be a string
(`.replace` raises otherwise). -/
def etLoop : List JSON → Except Unit (List String)
  | [] => .ok []
  | it :: rest =>
    match it with
    | .arr (a :: b :: _) =>
      if a == JSON.str "text" then
        match b with
        | .str s => do
          let tail ← etLoop rest
          pure (stripTagsS etymology_tags s :: tail)
        | _ => .error ()
      else etLoop rest
    | _ => etLoop rest

/-- Lines 186-195: etymology is the space-join of the stripped `"text"`
fragments. -/
def etStage (entry : JSON) : Except Unit String := do
  let hasEt ← pyMem "et" entry
  if hasEt then
    let etv ← pyGetItem entry "et"
    let items ← pyIter etv
    let parts ← etLoop items
    pure (String.intercalate " " parts)
  else pure ""

/-- The `for vis_item in dt_item[1]` loop of lines 213-218. -/
def visLoop : List JSON → List String → Except Unit (List String)
  | [], exs => .ok exs
  | v :: rest, exs => do
    let hasT ← pyMem "t" v
    if hasT then
      let tv ← pyGetItem v "t"
      match tv with
      | .str s => visLoop rest (exs ++ [stripTagsS example_tags s])
      | _ => .error ()
    else visLoop rest exs

/-- The `for dt_item in sense_data["dt"]` loop of lines 205-218.  Note that
`dt_item[0]` is evaluated without a length guard, so an empty list raises
`IndexError`. -/
def dtLoop : List JSON → List JSON → List String → Except Unit (List JSON × List String)
  | [], defs, exs => .ok (defs, exs)
  | it :: rest, defs, exs => do
    let tag ← pyIndex it 0
    if tag == JSON.str "text" then
      let tv ← pyIndex it 1
      match tv with
      | .str s => dtLoop rest (defs ++ [.str (stripTagsS definition_tags s)]) exs
      | _ => .error ()
    else if tag == JSON.str "vis" then
      let vv ← pyIndex it 1
      let vitems ← pyIter vv
      let exs' ← visLoop vitems exs
      dtLoop rest defs exs'
    else dtLoop rest defs exs

/-- The `for sense in sense_sequence` loop of lines 201-218: only lists of
length > 1 whose second element is a dict with a `"dt"` key contribute. -/
def sensesLoop : List JSON → List JSON → List String → Except Unit (List JSON × List String)
  | [], defs, exs => .ok (defs, exs)
  | s :: rest, defs, exs =>
    match s with
    | .arr (_ :: sd :: _) =>
      (match sd with
       | .obj _ => do
         let hasDt ← pyMem "dt" sd
         if hasDt then
           let dtv ← pyGetItem sd "dt"
           let items ← pyIter dtv
           let (defs', exs') ← dtLoop items defs exs
           sensesLoop rest defs' exs'
         else sensesLoop rest defs exs
       | _ => sensesLoop rest defs exs)
    | _ => sensesLoop rest defs exs

/-- The `for sense_sequence in definition_group["sseq"]` loop of lines
200-218. -/
def seqsLoop : List JSON → List JSON → List String → Except Unit (List JSON × List String)
  | [], defs, exs => .ok (defs, exs)
  | sq :: rest, defs, exs => do
    let senses ← pyIter sq
    let (defs', exs') ← sensesLoop senses defs exs
    seqsLoop rest defs' exs'

/-- The `for definition_group in entry["def"]` loop of lines 198-218. -/
def groupsLoop : List JSON → List JSON → List String → Except Unit (List JSON × List String)
  | [], defs, exs => .ok (defs, exs)
  | g :: rest, defs, exs => do
    let hasSseq ← pyMem "sseq" g
    if hasSseq then
      let sv ← pyGetItem g "sseq"
      let seqs ← pyIter sv
      let (defs', exs') ← seqsLoop seqs defs exs
      groupsLoop rest defs' exs'
    else groupsLoop rest defs exs

/-- Lines 197-218: definitions and examples gathered over the
group/sequence/sense/detail nesting. -/
def defStage (entry : JSON) : Except Unit (List JSON × List String) := do
  let hasDef ← pyMem "def" entry
  if hasDef then
    let dv ← pyGetItem entry "def"
    let groups ← pyIter dv
    groupsLoop groups [] []
  else pure ([], [])

/-- The `for short_def in entry["shortdef"]` loop of lines 221-223:
append items not already present (exact equality). -/
def shortLoop : List JSON → List JSON → List JSON
  | [], defs => defs
  | x :: rest, defs => shortLoop rest (if defs.contains x then defs else defs ++ [x])

/-- Lines 220-223. -/
def shortdefStage (entry : JSON) (defs : List JSON) : Except Unit (List JSON) := do
  let hasSd ← pyMem "shortdef" entry
  if hasSd then
    let sv ← pyGetItem entry "shortdef"
    let items ← pyIter sv
    pure (shortLoop items defs)
  else pure defs

/-- One iteration of the `for entry in data` loop (lines 163-225), in the
source's field order (which fixes which exception fires first). -/
def processEntry (entry : JSON) : Except Unit EntryData := do
  let hw ← headwordStage entry
  let pos ← flStage entry
  let pron ← pronStage entry
  let ety ← etStage entry
  let (defs, exs) ← defStage entry
  let defs' ← shortdefStage entry defs
  pure ⟨hw, pos, pron, ety, defs', exs⟩

def entriesLoop : List JSON → Except Unit (List EntryData)
  | [] => .ok []
  | e :: rest => do
    let d ← processEntry e
    let tail ← entriesLoop rest
    pure (d :: tail)

/-- The summary keys added at lines 229-235 when `all_entries` is
non-empty. -/
structure Summary where
  part_of_speech : JSON
  main_definition : JSON
  main_example : String
  pronunciation : String

/-- The `word_data` dict returned by `process_dictionary_response`:
`Word`, `Dictionary_Data`, the optional summary keys, `Audio_Files`.
When `data` is empty the `Dictionary_Data` placeholder `{}` is rendered as
the empty entry list and no summary keys exist. -/
structure WordData where
  word : String
  dictionary_data : List EntryData
  summary : Option Summary
  audio_files : List AudioInfo

/-- Embeds `WebAPIManager.process_dictionary_response` (lines 154-240).
`.error ()` marks a raised exception (caught by `get_dictionary_data`'s
`except`, which turns it into an `api_error` for the whole lookup). -/
def process_dictionary_response (data : List JSON) (word : String) : Except Unit WordData :=
  match data with
  | [] => do
    let audio ← extract_audio_info_from_api_response []
    pure ⟨pyTitle word, [], none, audio⟩
  | _ => do
    let entries ← entriesLoop data
    let audio ← extract_audio_info_from_api_response data
    match entries with
    | [] => pure ⟨pyTitle word, [], none, audio⟩
    | first :: _ =>
      pure ⟨(if first.headword == "" then pyTitle word else first.headword),
            entries,
            some ⟨first.part_of_speech,
                  first.definitions.headD (.str ""),
                  first.examples.headD "",
                  first.pronunciation⟩,
            audio⟩

/-! ## WebAPIManager.process_thesaurus_response (lines 242-272) -/

/-- The per-entry record of lines 247-254. -/
structure ThesEntryData where
  headword : String
  part_of_speech : JSON
  synonyms : List JSON
  antonyms : List JSON
  related_words : List JSON
  near_antonyms : List JSON

/-- The loop `entry_data[attr].extend(group)` over the groups of `meta[key]`
(lines 267-268). -/
def extendLoop : List JSON → List JSON → Except Unit (List JSON)
  | [], acc => .ok acc
  | g :: rest, acc => do
    let xs ← pyIter g
    extendLoop rest (acc ++ xs)

/-- Lines 266-268 for one of the four keys: absent key yields the empty
accumulation. -/
def keyGroups (meta : JSON) (key : String) : Except Unit (List JSON) := do
  let hasKey ← pyMem key meta
  if hasKey then
    let gv ← pyGetItem meta key
    let groups ← pyIter gv
    extendLoop groups []
  else pure []

/-- Lines 262-268: the `syns`/`ants`/`rel`/`near` groups. -/
def groupsStage (entry : JSON) :
    Except Unit (List JSON × List JSON × List JSON × List JSON) := do
  let hasMeta ← pyMem "meta" entry
  if hasMeta then
    let meta ← pyGetItem entry "meta"
    let syns ← keyGroups meta "syns"
    let ants ← keyGroups meta "ants"
    let rel ← keyGroups meta "rel"
    let near ← keyGroups meta "near"
    pure (syns, ants, rel, near)
  else pure ([], [], [], [])

def thesEntriesLoop : List JSON → Except Unit (List ThesEntryData)
  | [] => .ok []
  | e :: rest => do
    let hw ← headwordStage e
    let pos ← flStage e
    let (syns, ants, rel, near) ← groupsStage e
    let tail ← thesEntriesLoop rest
    pure (⟨hw, pos, syns, ants, rel, near⟩ :: tail)

/-- Embeds `WebAPIManager.process_thesaurus_response` (lines 242-272); the `word`
parameter is unused in the source body too. -/
def process_thesaurus_response (data : List JSON) (_word : String) :
    Except Unit (List ThesEntryData) :=
  thesEntriesLoop data

/-! ## The HTTP layer and the orchestrator (lines 92-152) -/

/-- Outcome of one `self.session.get(...)` call: `raise` is any exception
out of the transport (connection error, timeout); otherwise a status code
and the outcome of `response.json()` (`.error ()` = the body did not
parse). -/
inductive HttpResult where
  | raise : HttpResult
  | resp : Nat → Except Unit JSON → HttpResult

/-- What `get_dictionary_data` returns (lines 117-136): a
`word_not_found` error dict with or without a `suggestions` key, an
`api_error` dict, or the parsed `word_data`. -/
inductive DictResult where
  | wordNotFound : String → Option (List JSON) → DictResult
  | apiError : String → DictResult
  | success : WordData → DictResult

/-- Embeds `WebAPIManager.get_dictionary_data` (lines 117-136), with the HTTP
outcome passed as an oracle.  Every exception inside the `try` (transport
failure, bad JSON, a raise out of `process_dictionary_response`) lands in
`except Exception` and becomes `api_error`. -/
def get_dictionary_data (http : HttpResult) (word : String) : DictResult :=
  match http with
  | .raise => .apiError word
  | .resp status body =>
    if status == 200 then
      match body with
      | .error _ => .apiError word
      | .ok data =>
        match data with
        | .arr (first :: rest) =>
          (match first with
           | .str s => .wordNotFound word (some ((JSON.str s :: rest).take 5))
           | _ =>
             match process_dictionary_response (first :: rest) word with
             | .ok wd => .success wd
             | .error _ => .apiError word)
        | _ => .wordNotFound word none
    else .apiError word

/-- The value bound to the `Thesaurus_Data` key: either one of the two
placeholder strings (lines 149, 152) or the parsed entry list. -/
inductive ThesValue where
  | msg : String → ThesValue
  | entries : List ThesEntryData → ThesValue

/-- Embeds `WebAPIManager.get_thesaurus_data` (lines 138-152). -/
def get_thesaurus_data (http : HttpResult) (word : String) : ThesValue :=
  match http with
  | .raise => .msg "Thesaurus data unavailable"
  | .resp status body =>
    if status == 200 then
      match body with
      | .error _ => .msg "Thesaurus data unavailable"
      | .ok data =>
        match data with
        | .arr (first :: rest) =>
          (match first with
           | .str _ => .msg "No thesaurus data available"
           | _ =>
             match process_thesaurus_response (first :: rest) word with
             | .ok es => .entries es
             | .error _ => .msg "Thesaurus data unavailable")
        | _ => .msg "No thesaurus data available"
    else .msg "No thesaurus data available"

/-- The merged dict cached and returned on success (lines 105-110):
`dict_data` updated with the `Thesaurus_Data` key and
`Turkish_Translation`. -/
structure Combined where
  dict : WordData
  thesaurus : ThesValue
  turkish : String

/-- The three remote collaborators of one lookup, as oracles: the
dictionary HTTP call, the thesaurus HTTP call, and the translator
(`none` = the translator raised). -/
structure Oracles where
  dictHttp : HttpResult
  thesHttp : HttpResult
  translation : Option String

/-- Embeds `translate_to_turkish` (lines 282-287). -/
def translate_to_turkish (tr : Option String) : String :=
  match tr with
  | some t => t
  | none => "Çeviri bulunamadı"

/-- What `get_word_data` returns: an error dict (`kind` is the value of
its `"error"` key) or the combined data. -/
inductive LookupResult where
  | err : String → String → Option (List JSON) → LookupResult
  | ok : Combined → LookupResult

/-- The normalization `word.lower().strip()` (line 94). -/
def normWord (word : String) : String := pyStrip (pyLower word)

/-- The lookup into `self.cache` (line 86), a dict from normalized word to combined
result, modelled as a first-match association list. -/
def cacheLookup : List (String × Combined) → String → Option Combined
  | [], _ => none
  | (k, v) :: rest, w => if k = w then some v else cacheLookup rest w

/-- Embeds `WebAPIManager.get_word_data` (lines 92-115).  Returns the result, the
cache after the call, and how many remote calls (dictionary, thesaurus,
translation) were performed.  The `except` arms of lines 112-115 are
unreachable here because every inner call catches its own exceptions, as
they are in the source for the same reason. -/
def get_word_data (o : Oracles) (cache : List (String × Combined)) (word : String) :
    LookupResult × List (String × Combined) × Nat :=
  let w := normWord word
  match cacheLookup cache w with
  | some c => (.ok c, cache, 0)
  | none =>
    match get_dictionary_data o.dictHttp w with
    | .wordNotFound wd sug => (.err "word_not_found" wd sug, cache, 1)
    | .apiError wd => (.err "api_error" wd none, cache, 1)
    | .success wdata =>
      let thes := get_thesaurus_data o.thesHttp w
      let combined : Combined := ⟨wdata, thes, translate_to_turkish o.translation⟩
      (.ok combined, (w, combined) :: cache, 3)

/-- The error kind of a lookup result, if it is an error. -/
def isNetworkErr : LookupResult → Bool
  | .err k _ _ => k == "network_error"
  | .ok _ => false

/-! ## check_quiz_answer (lines 416-444) -/

/-- Accumulate ASCII digits, allowing single underscores between digits —
CPython's `int()` grammar after sign/whitespace handling. -/
def digitsGo (acc : Nat) : List Char → Option Nat
  | [] => some acc
  | c :: rest =>
    if pyIsDigit c then digitsGo (acc * 10 + (c.toNat - 48)) rest
    else if c = '_' then
      match rest with
      | d :: rest' =>
        if pyIsDigit d then digitsGo (acc * 10 + (d.toNat - 48)) rest' else none
      | [] => none
    else none

/-- A non-empty digit run (with underscores between digits). -/
def digitsU : List Char → Option Nat
  | [] => none
  | c :: rest => if pyIsDigit c then digitsGo (c.toNat - 48) rest else none

/-- Python `int(s)` (ASCII): surrounding whitespace, an optional sign, then
digits; `none` = `ValueError`. -/
def pyInt (s : String) : Option Int :=
  match pyStripChars s.data with
  | [] => none
  | c :: rest =>
    if c = '+' then (digitsU rest).map Int.ofNat
    else if c = '-' then (digitsU rest).map (fun n => -(Int.ofNat n))
    else (digitsU (c :: rest)).map Int.ofNat

def pyStartsWith (s pre : String) : Bool := pre.data.isPrefixOf s.data

/-- The comparison key `selected_option.strip().lower()` / `correct_option_text.strip().lower()`
as compared at line 439. -/
def quizNorm (s : String) : String := pyLower (pyStrip s)

/-- Embeds `check_quiz_answer` (lines 416-444): returns
`(is_correct, correct_answer)`.  `options[option_number]` is reached only
after the `0 <= option_number < len(options)` bound check, so `getD` with a
dummy default is exact. -/
def check_quiz_answer (selected_option correct_answer : String)
    (options : List String) : Bool × String :=
  let ref := pyStrip (pyUpper correct_answer)
  let correct_option_text :=
    if pyStartsWith ref "OPTION" then
      match pyInt (pyReplaceS ref "OPTION") with
      | some i =>
        let idx := i - 1
        if 0 ≤ idx ∧ idx < (options.length : Int) then options.getD idx.toNat ""
        else selected_option
      | none => selected_option
    else ref
  (quizNorm selected_option == quizNorm correct_option_text, correct_option_text)

/-! ## Favorites (lines 450-485) -/

/-- The case-insensitive key of a stored favorite: its `"Word"` value when
that is a string. -/
def wordOf (j : JSON) : Option String :=
  match j with
  | .obj f =>
    (match lookupField f "Word" with
     | some (.str s) => some s
     | _ => none)
  | _ => none

/-- How a favorites route ends: the collection is only mutated on `added`
or `removedOk`; `raised` is an escaped exception (HTTP 500, state kept). -/
inductive FavOutcome where
  | added : FavOutcome
  | alreadyPresent : FavOutcome
  | badRequest : FavOutcome
  | removedOk : FavOutcome
  | notFound : FavOutcome
  | cleared : FavOutcome
  | raised : FavOutcome

/-- The short-circuiting
`any(fav["Word"].lower() == word.lower() for fav in favorites_data)`
of line 461: each iteration evaluates `fav["Word"].lower()` then
`word.lower()`, either of which can raise. -/
def favCheck : List JSON → JSON → Except Unit Bool
  | [], _ => .ok false
  | fav :: rest, wv => do
    let fw ← pyGetItem fav "Word"
    let fs ← asStr fw
    let ws ← asStr wv
    if pyLower fs == pyLower ws then pure true else favCheck rest wv

/-- Embeds `add_favorite` (lines 450-466): `(new collection, outcome)`. -/
def add_favorite (favs : List JSON) (word_data : JSON) : List JSON × FavOutcome :=
  if pyFalsy word_data then (favs, .badRequest)
  else
    match pyDictGet word_data "Word" (.str "") with
    | .error _ => (favs, .raised)
    | .ok wv =>
      match favCheck favs wv with
      | .error _ => (favs, .raised)
      | .ok true => (favs, .alreadyPresent)
      | .ok false => (favs ++ [word_data], .added)

/-- The list comprehension of line 472; it is fully evaluated before the
assignment, so a raise leaves the collection unchanged. -/
def removeFilter : List JSON → String → Except Unit (List JSON)
  | [], _ => .ok []
  | fav :: rest, word => do
    let fw ← pyGetItem fav "Word"
    let fs ← asStr fw
    let tail ← removeFilter rest word
    pure (if pyLower fs == pyLower word then tail else fav :: tail)

/-- Embeds `remove_favorite` (lines 468-478). -/
def remove_favorite (favs : List JSON) (word : String) : List JSON × FavOutcome :=
  match removeFilter favs word with
  | .error _ => (favs, .raised)
  | .ok favs' =>
    (favs', if favs'.length < favs.length then .removedOk else .notFound)

/-- Embeds `clear_favorites` (lines 480-485). -/
def clear_favorites (_favs : List JSON) : List JSON × FavOutcome :=
  ([], .cleared)

/-- The favorites invariant: no two stored entries carry the same
case-insensitive `Word` value. -/
def FavInv (favs : List JSON) : Prop :=
  favs.Pairwise (fun a b => ∀ wa wb, wordOf a = some wa → wordOf b = some wb →
    pyLower wa ≠ pyLower wb)

/-! ## Statement-side definitions -/

/-- The 5-rule subdirectory precedence exactly as the specification states
it (section 4.2): empty name, ASCII-digit start, special-punctuation
start, `gg` start, else the lowercased first character. -/
def resolveSubdirectorySpec (F : String) : String :=
  match F.data with
  | [] => "bix"
  | c :: rest =>
    if pyIsDigit c then "number"
    else if c ∈ bixPrefixChars then "bix"
    else if ['g', 'g'].isPrefixOf (c :: rest) then "gg"
    else ⟨[pyLowerChar c]⟩

/-- A sufficient well-formedness condition on one dictionary entry under
which `process_dictionary_response` cannot raise: the entry is an object
and every field the parser touches has the vendor's shape when present
(keys may freely be absent). -/
def metaWF : Option JSON → Bool
  | none => true
  | some (.obj mf) =>
    (match lookupField mf "id" with
     | none => true
     | some v => isStrB v)
  | some _ => false

def prsWF : JSON → Bool
  | .obj pf =>
    (match lookupField pf "sound" with
     | none => true
     | some (.obj sf) =>
       (match lookupField sf "audio" with
        | none => true
        | some a => isStrB a)
     | some _ => false)
  | _ => false

def hwiWF : Option JSON → Bool
  | none => true
  | some (.obj hf) =>
    (match lookupField hf "prs" with
     | none => true
     | some (.arr ps) => ps.all prsWF
     | some _ => false)
  | some _ => false

def etItemWF : JSON → Bool
  | .arr (a :: b :: _) => if a == JSON.str "text" then isStrB b else true
  | _ => true

def etWF : Option JSON → Bool
  | none => true
  | some (.arr items) => items.all etItemWF
  | some _ => false

def visWF : JSON → Bool
  | .obj vf =>
    (match lookupField vf "t" with
     | none => true
     | some v => isStrB v)
  | _ => false

def dtWF : JSON → Bool
  | .arr (a :: rest) =>
    if a == JSON.str "text" then
      (match rest with
       | b :: _ => isStrB b
       | [] => false)
    else if a == JSON.str "vis" then
      (match rest with
       | (.arr vs) :: _ => vs.all visWF
       | _ => false)
    else true
  | _ => false

def sdWF : JSON → Bool
  | .obj sdf =>
    (match lookupField sdf "dt" with
     | none => true
     | some (.arr items) => items.all dtWF
     | some _ => false)
  | _ => true

def senseWF : JSON → Bool
  | .arr (_ :: sd :: _) => sdWF sd
  | _ => true

def seqWF : JSON → Bool
  | .arr senses => senses.all senseWF
  | _ => false

def groupWF : JSON → Bool
  | .obj gf =>
    (match lookupField gf "sseq" with
     | none => true
     | some (.arr seqs) => seqs.all seqWF
     | some _ => false)
  | _ => false

def defWF : Option JSON → Bool
  | none => true
  | some (.arr gs) => gs.all groupWF
  | some _ => false

def shortdefWF : Option JSON → Bool
  | none => true
  | some (.arr _) => true
  | some _ => false

/-- Entry well-formedness (see the individual field conditions above). -/
def entryWF : JSON → Bool
  | .obj f =>
    metaWF (lookupField f "meta") && hwiWF (lookupField f "hwi") &&
    etWF (lookupField f "et") && defWF (lookupField f "def") &&
    shortdefWF (lookupField f "shortdef")
  | _ => false

/-- A thesaurus group-of-groups (list of lists of strings) as JSON. -/
def groupsToJSON (xss : List (List String)) : JSON :=
  .arr (xss.map (fun xs => .arr (xs.map .str)))

/-- The numeric value of an ASCII digit run. -/
def digitsVal (ds : List Char) : Nat :=
  ds.foldl (fun a c => a * 10 + (c.toNat - 48)) 0

/-- A concrete response entry exercising the audio extractor. -/
def c2SampleEntry : JSON :=
  .obj [("hwi", .obj [("prs", .arr [.obj [("sound", .obj [("audio", .str "cat")])]])])]

/-- The audio record the extractor produces for `c2SampleEntry`. -/
def c2SampleAudio : AudioInfo :=
  ⟨"https://media.merriam-webster.com/audio/prons/en/us/mp3/c/cat.mp3", "cat", .str "", .str ""⟩

/-- A concrete cached value for the cache-hit witness. -/
def c5SampleCombined : Combined :=
  ⟨⟨"Cat", [], none, []⟩, .msg "No thesaurus data available", "kedi"⟩

/-! # Lemmas and theorems -/

theorem char_of_toNat (c d : Char) (h : c.toNat = d.toNat) : c = d :=
  Char.ext (UInt32.ext h)

theorem mem_digit_iff (c : Char) : c ∈ digitPrefixChars ↔ pyIsDigit c = true := by
  constructor
  · intro h
    fin_cases h <;> decide
  · intro h
    simp only [pyIsDigit, Bool.and_eq_true, decide_eq_true_eq] at h
    obtain ⟨h1, h2⟩ := h
    have h3 : c.toNat = 48 ∨ c.toNat = 49 ∨ c.toNat = 50 ∨ c.toNat = 51 ∨
        c.toNat = 52 ∨ c.toNat = 53 ∨ c.toNat = 54 ∨ c.toNat = 55 ∨
        c.toNat = 56 ∨ c.toNat = 57 := by omega
    rcases h3 with h'|h'|h'|h'|h'|h'|h'|h'|h'|h'
    · rw [char_of_toNat c '0' h']; decide
    · rw [char_of_toNat c '1' h']; decide
    · rw [char_of_toNat c '2' h']; decide
    · rw [char_of_toNat c '3' h']; decide
    · rw [char_of_toNat c '4' h']; decide
    · rw [char_of_toNat c '5' h']; decide
    · rw [char_of_toNat c '6' h']; decide
    · rw [char_of_toNat c '7' h']; decide
    · rw [char_of_toNat c '8' h']; decide
    · rw [char_of_toNat c '9' h']; decide

theorem get_audio_subdirectory_eq_spec (F : String) :
    get_audio_subdirectory F = resolveSubdirectorySpec F := by
  cases hF : F.data with
  | nil => simp [get_audio_subdirectory, resolveSubdirectorySpec, hF]
  | cons c rest =>
    by_cases hd : pyIsDigit c = true
    · have hm : c ∈ digitPrefixChars := (mem_digit_iff c).mpr hd
      simp [get_audio_subdirectory, resolveSubdirectorySpec, hF, hm, hd]
    · have hm : c ∉ digitPrefixChars := fun hmm => hd ((mem_digit_iff c).mp hmm)
      simp [get_audio_subdirectory, resolveSubdirectorySpec, hF, hm, hd]

theorem audioPrsLoop_url (ps : List JSON) (entry : JSON) :
    ∀ l, audioPrsLoop ps entry = .ok l → ∀ a ∈ l, a.url = mkAudioUrl a.filename := by
  induction ps with
  | nil =>
    intro l h a ha
    simp only [audioPrsLoop] at h
    cases h
    simp at ha
  | cons p rest ih =>
    intro l h a ha
    simp only [audioPrsLoop, bind, Except.bind, pure, Except.pure] at h
    cases h1 : pyMem "sound" p with
    | error e => simp only [h1] at h; exact Except.noConfusion h
    | ok hasSound =>
      simp only [h1] at h
      cases hasSound with
      | false =>
        simp only [Bool.false_eq_true, if_false] at h
        exact ih l h a ha
      | true =>
        simp only [if_true] at h
        cases h2 : pyGetItem p "sound" with
        | error e => simp only [h2] at h; exact Except.noConfusion h
        | ok sound =>
          simp only [h2] at h
          cases h3 : pyMem "audio" sound with
          | error e => simp only [h3] at h; exact Except.noConfusion h
          | ok hasAudio =>
            simp only [h3] at h
            cases hasAudio with
            | false =>
              simp only [Bool.false_eq_true, if_false] at h
              exact ih l h a ha
            | true =>
              simp only [if_true] at h
              cases h4 : pyGetItem sound "audio" with
              | error e => simp only [h4] at h; exact Except.noConfusion h
              | ok audio =>
                simp only [h4] at h
                by_cases h5 : pyFalsy audio = true
                · rw [if_pos h5] at h
                  exact ih l h a ha
                · rw [if_neg h5] at h
                  cases audio with
                  | str f =>
                    cases h6 : pyDictGet p "mw" (.str "") with
                    | error e => simp only [h6] at h; exact Except.noConfusion h
                    | ok mw =>
                      simp only [h6] at h
                      cases h7 : pyDictGet entry "meta" (.obj []) with
                      | error e => simp only [h7] at h; exact Except.noConfusion h
                      | ok meta =>
                        simp only [h7] at h
                        cases h8 : pyDictGet meta "id" (.str "") with
                        | error e => simp only [h8] at h; exact Except.noConfusion h
                        | ok eid =>
                          simp only [h8] at h
                          cases h9 : audioPrsLoop rest entry with
                          | error e => simp only [h9] at h; exact Except.noConfusion h
                          | ok tail =>
                            simp only [h9] at h
                            cases h
                            rcases List.mem_cons.mp ha with rfl | ha'
                            · rfl
                            · exact ih tail h9 a ha'
                  | null => exact Except.noConfusion h
                  | bool b => exact Except.noConfusion h
                  | num n => exact Except.noConfusion h
                  | arr xs => exact Except.noConfusion h
                  | obj fs => exact Except.noConfusion h

theorem entryAudio_url (entry : JSON) :
    ∀ l, entryAudio entry = .ok l → ∀ a ∈ l, a.url = mkAudioUrl a.filename := by
  intro l h a ha
  cases entry with
  | obj f =>
    simp only [entryAudio, bind, Except.bind, pure, Except.pure] at h
    cases h1 : pyMem "hwi" (JSON.obj f) with
    | error e => simp only [h1] at h; exact Except.noConfusion h
    | ok hasHwi =>
      simp only [h1] at h
      cases hasHwi with
      | false =>
        simp only [Bool.false_eq_true, if_false] at h
        cases h
        simp at ha
      | true =>
        simp only [if_true] at h
        cases h2 : pyGetItem (JSON.obj f) "hwi" with
        | error e => simp only [h2] at h; exact Except.noConfusion h
        | ok hwi =>
          simp only [h2] at h
          cases h3 : pyMem "prs" hwi with
          | error e => simp only [h3] at h; exact Except.noConfusion h
          | ok hasPrs =>
            simp only [h3] at h
            cases hasPrs with
            | false =>
              simp only [Bool.false_eq_true, if_false] at h
              cases h
              simp at ha
            | true =>
              simp only [if_true] at h
              cases h4 : pyGetItem hwi "prs" with
              | error e => simp only [h4] at h; exact Except.noConfusion h
              | ok prsv =>
                simp only [h4] at h
                cases h5 : pyIter prsv with
                | error e => simp only [h5] at h; exact Except.noConfusion h
                | ok items =>
                  simp only [h5] at h
                  exact audioPrsLoop_url items (JSON.obj f) l h a ha
  | null => simp only [entryAudio] at h; cases h; simp at ha
  | bool b => simp only [entryAudio] at h; cases h; simp at ha
  | num n => simp only [entryAudio] at h; cases h; simp at ha
  | str s => simp only [entryAudio] at h; cases h; simp at ha
  | arr xs => simp only [entryAudio] at h; cases h; simp at ha

theorem audioEntriesLoop_url (data : List JSON) :
    ∀ l, audioEntriesLoop data = .ok l → ∀ a ∈ l, a.url = mkAudioUrl a.filename := by
  induction data with
  | nil => intro l h a ha; cases h; simp at ha
  | cons e rest ih =>
    intro l h a ha
    simp only [audioEntriesLoop, bind, Except.bind, pure, Except.pure] at h
    cases h1 : entryAudio e with
    | error er => simp only [h1] at h; exact Except.noConfusion h
    | ok xs =>
      simp only [h1] at h
      cases h2 : audioEntriesLoop rest with
      | error er => simp only [h2] at h; exact Except.noConfusion h
      | ok tail =>
        simp only [h2] at h
        cases h
        rcases List.mem_append.mp ha with ha' | ha'
        · exact entryAudio_url e xs h1 a ha'
        · exact ih tail h2 a ha'

/-- C2: the audio-URL resolver follows the specification's 5-rule
precedence exactly, and every audio record extracted from a response
carries the URL `base + subdirectory + "/" + filename + ".mp3"`. -/
theorem audio_url_resolver_correct :
    (∀ F : String, get_audio_subdirectory F = resolveSubdirectorySpec F)
    ∧ (∀ (data : List JSON) (l : List AudioInfo),
        extract_audio_info_from_api_response data = .ok l →
        ∀ a ∈ l, a.url = base_audio_url ++ get_audio_subdirectory a.filename
          ++ "/" ++ a.filename ++ ".mp3") := by
  constructor
  · exact get_audio_subdirectory_eq_spec
  · intro data l h a ha
    have : a.url = mkAudioUrl a.filename := by
      cases data with
      | nil =>
        simp only [extract_audio_info_from_api_response] at h
        cases h
        simp at ha
      | cons e rest =>
        exact audioEntriesLoop_url (e :: rest) l h a ha
    simpa [mkAudioUrl] using this

/-- Witness for C2 at a concrete response. -/
theorem audio_url_resolver_correct_witness :
    c2SampleAudio.url = base_audio_url ++ get_audio_subdirectory c2SampleAudio.filename
      ++ "/" ++ c2SampleAudio.filename ++ ".mp3" :=
  audio_url_resolver_correct.2 [c2SampleEntry] [c2SampleAudio] (by rfl)
    c2SampleAudio (by simp)

theorem occursIn_empty (pat s : List Char) (he : pat = []) : occursIn pat s = true := by
  cases s with
  | nil => simp [occursIn, he]
  | cons c rest => simp [occursIn, he, List.isPrefixOf]

theorem pyRepGo_of_not_occurs {pat s : List Char} (h : occursIn pat s = false) :
    pyRepGo pat s 0 = s := by
  induction s with
  | nil => rfl
  | cons c rest ih =>
    simp only [occursIn, Bool.or_eq_false_iff] at h
    obtain ⟨h1, h2⟩ := h
    simp only [pyRepGo, h1, Bool.false_eq_true, if_false]
    rw [ih h2]

theorem pyReplaceL_of_not_occurs {pat s : List Char} (h : occursIn pat s = false) :
    pyReplaceL s pat = s := by
  by_cases he : pat.isEmpty = true
  · exfalso
    rw [occursIn_empty pat s (List.isEmpty_iff.mp he)] at h
    exact Bool.noConfusion h
  · simp only [pyReplaceL, he, Bool.false_eq_true, if_false]
    exact pyRepGo_of_not_occurs h

theorem foldl_replace_id {tags : List (List Char)} {s : List Char}
    (h : ∀ t ∈ tags, occursIn t s = false) :
    tags.foldl pyReplaceL s = s := by
  induction tags with
  | nil => rfl
  | cons t ts ih =>
    rw [List.foldl_cons, pyReplaceL_of_not_occurs (h t (by simp))]
    exact ih (fun u hu => h u (by simp [hu]))

theorem dropWhile_dropWhile (p : Char → Bool) (l : List Char) :
    List.dropWhile p (List.dropWhile p l) = List.dropWhile p l := by
  induction l with
  | nil => rfl
  | cons c cs ih =>
    by_cases hc : p c = true
    · simp only [List.dropWhile_cons, hc, if_true]
      exact ih
    · simp only [List.dropWhile_cons, hc, Bool.false_eq_true, if_false]

theorem dropWhile_head_false {p : Char → Bool} {l : List Char} {x : Char} {xs : List Char}
    (h : List.dropWhile p l = x :: xs) : p x = false := by
  induction l with
  | nil => exact List.noConfusion h
  | cons c cs ih =>
    by_cases hc : p c = true
    · simp only [List.dropWhile_cons, hc, if_true] at h
      exact ih h
    · simp only [List.dropWhile_cons, hc, Bool.false_eq_true, if_false] at h
      cases h
      simpa using hc

theorem pyStripChars_idem (l : List Char) :
    pyStripChars (pyStripChars l) = pyStripChars l := by
  set ws := pyIsSpace with hws
  set a := l.dropWhile ws with ha
  set b := a.reverse.dropWhile ws with hb
  have hr : pyStripChars l = b.reverse := rfl
  have hstep1 : List.dropWhile ws b.reverse = b.reverse := by
    cases hrb : b.reverse with
    | nil => rfl
    | cons x xs =>
      have hpre : x :: xs <+: a := by
        rw [← hrb]
        have hsuf : b <:+ a.reverse := by
          rw [hb]; exact List.dropWhile_suffix ws
        have := (@List.reverse_prefix Char b a.reverse).mpr hsuf
        simpa using this
      obtain ⟨t, ht⟩ := hpre
      cases hA : a with
      | nil => rw [hA] at ht; exact List.noConfusion ht
      | cons y ys =>
        have hy : ws y = false := @dropWhile_head_false ws l y ys (by rw [← ha, hA])
        rw [hA] at ht
        have hxy : x = y := by
          have := congrArg List.head? ht
          simpa using this
        rw [List.dropWhile_cons, hxy, hy]
        simp
  have hstep2 : List.dropWhile ws b = b := by
    rw [hb]
    exact dropWhile_dropWhile ws a.reverse
  calc pyStripChars (pyStripChars l)
      = ((b.reverse.dropWhile ws).reverse.dropWhile ws).reverse := by rw [hr]; rfl
    _ = (b.dropWhile ws).reverse := by rw [hstep1, List.reverse_reverse]
    _ = b.reverse := by rw [hstep2]
    _ = pyStripChars l := by rw [hr]

/-- C6 (amended): one strip pass is a fixpoint of further passes exactly
when no token occurs in its output; on such texts strip-then-trim is
idempotent. -/
theorem strip_tags_idempotent_when_no_token_reappears
    (tags : List (List Char)) (text : List Char)
    (h : ∀ tag ∈ tags, occursIn tag (stripTagsL tags text) = false) :
    stripTagsL tags (stripTagsL tags text) = stripTagsL tags text := by
  have h1 : List.foldl pyReplaceL (stripTagsL tags text) tags = stripTagsL tags text :=
    foldl_replace_id h
  show pyStripChars (List.foldl pyReplaceL (stripTagsL tags text) tags) = stripTagsL tags text
  rw [h1]
  show pyStripChars (pyStripChars (List.foldl pyReplaceL text tags)) = _
  exact pyStripChars_idem _

/-- C6 counterexample: with the definition-token set, stripping
"\x7bsx\x7d|" once yields "\x7bsx|" (removing "\x7d" splices a new
"\x7bsx|" token together), and stripping a second time erases it, so
strip-then-trim applied twice differs from once. -/
theorem strip_tags_not_idempotent_cex :
    stripTagsL (definition_tags.map String.data) "\x7bsx\x7d|".data = "\x7bsx|".data
    ∧ stripTagsL (definition_tags.map String.data)
        (stripTagsL (definition_tags.map String.data) "\x7bsx\x7d|".data) = []
    ∧ (stripTagsL (definition_tags.map String.data)
        (stripTagsL (definition_tags.map String.data) "\x7bsx\x7d|".data)
       == stripTagsL (definition_tags.map String.data) "\x7bsx\x7d|".data) = false := by
  refine ⟨by decide, by decide, by decide⟩

theorem strip_tags_idem_witness :
    stripTagsL (definition_tags.map String.data)
        (stripTagsL (definition_tags.map String.data) "abc".data)
      = stripTagsL (definition_tags.map String.data) "abc".data :=
  strip_tags_idempotent_when_no_token_reappears _ _ (by decide)

/-- C4: a 200 dictionary response whose list starts with a string yields
`word_not_found` with the first at-most-5 elements (in order) as
suggestions; an empty list yields `word_not_found` with no suggestions. -/
theorem dict_not_found_suggestions (word s : String) (rest : List JSON) :
    get_dictionary_data (.resp 200 (.ok (.arr (.str s :: rest)))) word
      = .wordNotFound word (some ((JSON.str s :: rest).take 5))
    ∧ get_dictionary_data (.resp 200 (.ok (.arr []))) word = .wordNotFound word none
    ∧ ((JSON.str s :: rest).take 5).length ≤ 5
    ∧ (JSON.str s :: rest).take 5 <+: (JSON.str s :: rest) := by
  refine ⟨rfl, rfl, ?_, List.take_prefix 5 _⟩
  simp

/-- C3: a transport-level failure of the dictionary call surfaces as
`api_error`, not `network_error` (the broad `except` in
`get_dictionary_data` swallows the `requests` exception before
`get_word_data`'s `network_error` arm can see it); indeed no lookup result
ever carries `network_error`. -/
theorem transport_failure_maps_to_api_error :
    (∀ word : String, get_dictionary_data .raise word = .apiError word)
    ∧ (∀ (thes : HttpResult) (tr : Option String) (word : String),
        get_word_data ⟨.raise, thes, tr⟩ [] word
          = (.err "api_error" (normWord word) none, [], 1))
    ∧ (∀ (o : Oracles) (cache : List (String × Combined)) (word : String),
        isNetworkErr (get_word_data o cache word).1 = false) := by
  refine ⟨fun word => rfl, fun thes tr word => rfl, fun o cache word => ?_⟩
  simp only [get_word_data]
  cases h1 : cacheLookup cache (normWord word) with
  | some c => simp [isNetworkErr]
  | none =>
    cases h2 : get_dictionary_data o.dictHttp (normWord word) with
    | wordNotFound w sug => simp [isNetworkErr]
    | apiError w => simp [isNetworkErr]
    | success wd => simp [isNetworkErr]

theorem extendLoop_flatten (xss : List (List String)) (acc : List JSON) :
    extendLoop (xss.map (fun xs => JSON.arr (xs.map .str))) acc
      = .ok (acc ++ (xss.flatten).map .str) := by
  induction xss generalizing acc with
  | nil => simp [extendLoop]
  | cons xs rest ih =>
    simp only [List.map_cons, extendLoop, pyIter, bind, Except.bind]
    rw [ih]
    simp

/-- C7: thesaurus groups keyed `syns`/`ants`/`rel`/`near`, each a list of
lists of strings, are flattened into the four output fields preserving
order; in particular `syns = [["a","b"],["c"]]` yields synonyms
`["a","b","c"]`. -/
theorem thesaurus_flattens_groups (syns ants rel near : List (List String)) (word : String) :
    process_thesaurus_response
        [.obj [("meta", .obj [("syns", groupsToJSON syns), ("ants", groupsToJSON ants),
                              ("rel", groupsToJSON rel), ("near", groupsToJSON near)])]] word
      = .ok [⟨"", .str "", (syns.flatten).map .str, (ants.flatten).map .str,
             (rel.flatten).map .str, (near.flatten).map .str⟩]
    ∧ process_thesaurus_response
        [.obj [("meta", .obj [("syns", groupsToJSON [["a", "b"], ["c"]])])]] word
      = .ok [⟨"", .str "", [.str "a", .str "b", .str "c"], [], [], []⟩] := by
  constructor
  · have hsyns := extendLoop_flatten syns []
    have hants := extendLoop_flatten ants []
    have hrel := extendLoop_flatten rel []
    have hnear := extendLoop_flatten near []
    simp only [List.nil_append] at hsyns hants hrel hnear
    show thesEntriesLoop _ = _
    simp [thesEntriesLoop, headwordStage, flStage, groupsStage, keyGroups, pyMem,
      pyGetItem, lookupField, pyIter, groupsToJSON, bind, Except.bind, pure, Except.pure,
      hsyns, hants, hrel, hnear]
  · rfl

/-- C5: once a lookup has succeeded, any later lookup normalizing to the
same word returns the stored combined value itself, leaves the cache as
is, and performs zero remote calls. -/
theorem cached_lookup_returns_stored :
    ∀ (o₁ : Oracles) (cache : List (String × Combined)) (word : String)
      (c : Combined) (cache' : List (String × Combined)) (n : Nat),
      get_word_data o₁ cache word = (.ok c, cache', n) →
      ∀ (o₂ : Oracles) (word₂ : String), normWord word₂ = normWord word →
        get_word_data o₂ cache' word₂ = (.ok c, cache', 0) := by
  intro o₁ cache word c cache' n h o₂ word₂ hw
  simp only [get_word_data] at h ⊢
  rw [hw]
  cases h1 : cacheLookup cache (normWord word) with
  | some c₀ =>
    rw [h1] at h
    simp only [Prod.mk.injEq, LookupResult.ok.injEq] at h
    obtain ⟨hc, hcache, hn⟩ := h
    subst hc
    subst hcache
    rw [h1]
  | none =>
    rw [h1] at h
    cases h2 : get_dictionary_data o₁.dictHttp (normWord word) with
    | wordNotFound w s => rw [h2] at h; simp at h
    | apiError w => rw [h2] at h; simp at h
    | success wd =>
      rw [h2] at h
      simp only [Prod.mk.injEq, LookupResult.ok.injEq] at h
      obtain ⟨hc, hcache, hn⟩ := h
      subst hc
      rw [← hcache]
      simp [cacheLookup]

/-- C10: an error result leaves the cache unchanged (errors are never
stored), so looking the word up again always reaches the remote
dictionary call again. -/
theorem error_results_not_cached :
    ∀ (o : Oracles) (cache : List (String × Combined)) (word : String)
      (r : LookupResult) (cache' : List (String × Combined)) (n : Nat),
      get_word_data o cache word = (r, cache', n) →
      ∀ (k w : String) (s : Option (List JSON)), r = .err k w s →
        cache' = cache ∧ ∀ o₂ : Oracles, 1 ≤ (get_word_data o₂ cache word).2.2 := by
  intro o cache word r cache' n h k w s hr
  subst hr
  simp only [get_word_data] at h
  cases h1 : cacheLookup cache (normWord word) with
  | some c₀ => rw [h1] at h; simp at h
  | none =>
    rw [h1] at h
    have hsecond : ∀ o₂ : Oracles, 1 ≤ (get_word_data o₂ cache word).2.2 := by
      intro o₂
      simp only [get_word_data]
      rw [h1]
      cases get_dictionary_data o₂.dictHttp (normWord word) <;> simp
    cases h2 : get_dictionary_data o.dictHttp (normWord word) with
    | wordNotFound ww ss =>
      rw [h2] at h
      simp only [Prod.mk.injEq] at h
      exact ⟨h.2.1.symm, hsecond⟩
    | apiError ww =>
      rw [h2] at h
      simp only [Prod.mk.injEq] at h
      exact ⟨h.2.1.symm, hsecond⟩
    | success wd =>
      rw [h2] at h
      simp at h

theorem cached_lookup_returns_stored_witness :
    get_word_data ⟨.raise, .raise, none⟩ [("cat", c5SampleCombined)] "CAT "
      = (.ok c5SampleCombined, [("cat", c5SampleCombined)], 0) :=
  cached_lookup_returns_stored ⟨.raise, .raise, none⟩ [("cat", c5SampleCombined)] "cat"
    c5SampleCombined [("cat", c5SampleCombined)] 0 rfl ⟨.raise, .raise, none⟩ "CAT " (by decide)

theorem error_results_not_cached_witness :
    1 ≤ (get_word_data ⟨.raise, .raise, none⟩ [] "cat").2.2 :=
  (error_results_not_cached ⟨.raise, .raise, none⟩ [] "cat" (.err "api_error" "cat" none) [] 1
    rfl "api_error" "cat" none rfl).2 ⟨.raise, .raise, none⟩

theorem map_fix {f : Char → Char} {l : List Char} (h : ∀ c ∈ l, f c = c) :
    l.map f = l := by
  induction l with
  | nil => rfl
  | cons c rest ih =>
    rw [List.map_cons, h c (by simp), ih (fun d hd => h d (by simp [hd]))]

theorem pyUpperChar_digit {c : Char} (h : pyIsDigit c = true) : pyUpperChar c = c := by
  simp only [pyIsDigit, Bool.and_eq_true, decide_eq_true_eq] at h
  simp only [pyUpperChar]
  rw [if_neg]
  simp only [Bool.and_eq_true, decide_eq_true_eq, not_and]
  omega

theorem pyIsSpace_digit {c : Char} (h : pyIsDigit c = true) : pyIsSpace c = false := by
  simp only [pyIsDigit, Bool.and_eq_true, decide_eq_true_eq] at h
  simp only [pyIsSpace]
  simp only [Bool.or_eq_false_iff, beq_eq_false_iff_ne, ne_eq]
  omega

theorem dropWhile_eq_self_of {p : Char → Bool} {l : List Char}
    (h : ∀ c ∈ l, p c = false) : l.dropWhile p = l := by
  cases l with
  | nil => rfl
  | cons c rest => simp [List.dropWhile_cons, h c (by simp)]

theorem pyStripChars_eq_self {l : List Char} (h : ∀ c ∈ l, pyIsSpace c = false) :
    pyStripChars l = l := by
  unfold pyStripChars
  rw [dropWhile_eq_self_of h]
  rw [dropWhile_eq_self_of (fun c hc => h c (List.mem_reverse.mp hc))]
  exact List.reverse_reverse l

theorem isPrefixOf_self_append (l t : List Char) : l.isPrefixOf (l ++ t) = true := by
  induction l with
  | nil => simp [List.isPrefixOf]
  | cons c rest ih => simp [List.isPrefixOf, ih]

theorem occursIn_option_digits {ds : List Char} (h : ∀ c ∈ ds, pyIsDigit c = true) :
    occursIn "OPTION".data ds = false := by
  induction ds with
  | nil => rfl
  | cons d rest ih =>
    have hd : pyIsDigit d = true := h d (by simp)
    have hne : ('O' == d) = false := by
      refine beq_eq_false_iff_ne.mpr ?_
      intro he
      rw [← he] at hd
      simp only [pyIsDigit] at hd
      exact absurd hd (by decide)
    simp only [occursIn, Bool.or_eq_false_iff]
    constructor
    · show List.isPrefixOf ('O' :: _) (d :: rest) = false
      simp [List.isPrefixOf, hne]
    · exact ih (fun c hc => h c (by simp [hc]))

theorem pyRepGo_skip (pat pre s : List Char) :
    pyRepGo pat (pre ++ s) pre.length = pyRepGo pat s 0 := by
  induction pre with
  | nil => rfl
  | cons c rest ih => simpa [pyRepGo] using ih

theorem replace_option_head {ds : List Char} (h : ∀ c ∈ ds, pyIsDigit c = true) :
    pyReplaceL ("OPTION".data ++ ds) "OPTION".data = ds := by
  have hpre : List.isPrefixOf "OPTION".data ("OPTION".data ++ ds) = true :=
    isPrefixOf_self_append _ _
  show pyRepGo "OPTION".data ("OPTION".data ++ ds) 0 = ds
  have hexp : "OPTION".data = 'O' :: "PTION".data := rfl
  rw [hexp]
  show (if List.isPrefixOf ('O' :: "PTION".data) ('O' :: ("PTION".data ++ ds)) then
          pyRepGo ('O' :: "PTION".data) ("PTION".data ++ ds) (('O' :: "PTION".data).length - 1)
        else _) = ds
  rw [if_pos (by rw [← hexp]; exact hpre)]
  have hlen : ('O' :: "PTION".data).length - 1 = "PTION".data.length := rfl
  rw [hlen, pyRepGo_skip]
  rw [← hexp]
  exact pyRepGo_of_not_occurs (occursIn_option_digits h)

theorem digitsGo_all {ds : List Char} (h : ∀ c ∈ ds, pyIsDigit c = true) (acc : Nat) :
    digitsGo acc ds = some (ds.foldl (fun a c => a * 10 + (c.toNat - 48)) acc) := by
  induction ds generalizing acc with
  | nil => rfl
  | cons c rest ih =>
    rw [digitsGo.eq_def]
    simp only [h c (by simp), if_true, List.foldl_cons]
    exact ih (fun d hd => h d (by simp [hd])) _

theorem digitsU_all {ds : List Char} (hne : ds ≠ []) (h : ∀ c ∈ ds, pyIsDigit c = true) :
    digitsU ds = some (digitsVal ds) := by
  cases ds with
  | nil => exact absurd rfl hne
  | cons c rest =>
    simp only [digitsU, h c (by simp), if_true]
    rw [digitsGo_all (fun d hd => h d (by simp [hd]))]
    simp [digitsVal]

theorem pyInt_digits {ds : List Char} (hne : ds ≠ []) (h : ∀ c ∈ ds, pyIsDigit c = true) :
    pyInt ⟨ds⟩ = some (Int.ofNat (digitsVal ds)) := by
  have hs : pyStripChars ds = ds :=
    pyStripChars_eq_self (fun c hc => pyIsSpace_digit (h c hc))
  cases ds with
  | nil => exact absurd rfl hne
  | cons c rest =>
    have hd : pyIsDigit c = true := h c (by simp)
    have hplus : ¬(c = '+') := by
      intro he; rw [he] at hd; exact absurd hd (by decide)
    have hminus : ¬(c = '-') := by
      intro he; rw [he] at hd; exact absurd hd (by decide)
    show (match pyStripChars (c :: rest) with
      | [] => none
      | c :: rest =>
        if c = '+' then (digitsU rest).map Int.ofNat
        else if c = '-' then (digitsU rest).map (fun n => -(Int.ofNat n))
        else (digitsU (c :: rest)).map Int.ofNat) = some (Int.ofNat (digitsVal (c :: rest)))
    rw [hs]
    simp only [hplus, hminus, if_false]
    rw [digitsU_all hne h]
    rfl

theorem optionPlusDigits_upper {ds : List Char} (h : ∀ c ∈ ds, pyIsDigit c = true) :
    pyUpper ⟨"OPTION".data ++ ds⟩ = ⟨"OPTION".data ++ ds⟩ := by
  show String.mk (("OPTION".data ++ ds).map pyUpperChar) = _
  rw [List.map_append]
  have h1 : "OPTION".data.map pyUpperChar = "OPTION".data := by decide
  have h2 : ds.map pyUpperChar = ds := map_fix (fun c hc => pyUpperChar_digit (h c hc))
  rw [h1, h2]

theorem optionPlusDigits_strip {ds : List Char} (h : ∀ c ∈ ds, pyIsDigit c = true) :
    pyStrip ⟨"OPTION".data ++ ds⟩ = ⟨"OPTION".data ++ ds⟩ := by
  show String.mk (pyStripChars ("OPTION".data ++ ds)) = _
  rw [pyStripChars_eq_self]
  intro c hc
  rcases List.mem_append.mp hc with hc' | hc'
  · fin_cases hc' <;> decide
  · exact pyIsSpace_digit (h c hc')

theorem quiz_option_case (sel : String) (opts : List String) (ds : List Char)
    (hne : ds ≠ []) (hdig : ∀ c ∈ ds, pyIsDigit c = true) :
    check_quiz_answer sel ⟨"OPTION".data ++ ds⟩ opts
      = (if 1 ≤ digitsVal ds ∧ digitsVal ds ≤ opts.length
         then (quizNorm sel == quizNorm (opts.getD (digitsVal ds - 1) ""),
               opts.getD (digitsVal ds - 1) "")
         else (true, sel)) := by
  have h1 : pyStrip (pyUpper ⟨"OPTION".data ++ ds⟩) = ⟨"OPTION".data ++ ds⟩ := by
    rw [optionPlusDigits_upper hdig, optionPlusDigits_strip hdig]
  have h2 : pyStartsWith (⟨"OPTION".data ++ ds⟩ : String) "OPTION" = true :=
    isPrefixOf_self_append _ _
  have h3 : pyReplaceS ⟨"OPTION".data ++ ds⟩ "OPTION" = ⟨ds⟩ :=
    congrArg String.mk (replace_option_head hdig)
  simp only [check_quiz_answer, h1, h2, if_true, h3, pyInt_digits hne hdig,
    Int.ofNat_eq_natCast]
  by_cases hin : 1 ≤ digitsVal ds ∧ digitsVal ds ≤ opts.length
  · rw [if_pos hin]
    have hidx : (0 : Int) ≤ (digitsVal ds : Int) - 1 ∧
        (digitsVal ds : Int) - 1 < (opts.length : Int) := by
      obtain ⟨ha, hb⟩ := hin
      constructor <;> omega
    rw [if_pos hidx]
    have htn : ((digitsVal ds : Int) - 1).toNat = digitsVal ds - 1 := by omega
    rw [htn]
  · rw [if_neg hin]
    have hout : ¬((0 : Int) ≤ (digitsVal ds : Int) - 1 ∧
        (digitsVal ds : Int) - 1 < (opts.length : Int)) := by omega
    rw [if_neg hout]
    simp [quizNorm]

/-- C8 (amended): `OPTIONn` with `n` in 1..len resolves to the n-th
option; a non-`OPTION` answer is compared as its uppercased trimmed text;
an out-of-range index or unparsable suffix falls back to the submitted
`selected_option` (making `is_correct` trivially true); `is_correct`
is always the trimmed case-insensitive comparison against the returned
text. -/
theorem quiz_check_resolution :
    (∀ (sel : String) (opts : List String) (ds : List Char),
      ds ≠ [] → (∀ c ∈ ds, pyIsDigit c = true) →
      (1 ≤ digitsVal ds → digitsVal ds ≤ opts.length →
        check_quiz_answer sel ⟨"OPTION".data ++ ds⟩ opts
          = (quizNorm sel == quizNorm (opts.getD (digitsVal ds - 1) ""),
             opts.getD (digitsVal ds - 1) ""))
      ∧ (opts.length < digitsVal ds ∨ digitsVal ds = 0 →
        check_quiz_answer sel ⟨"OPTION".data ++ ds⟩ opts = (true, sel)))
    ∧ (∀ (sel ca : String) (opts : List String),
        pyStartsWith (pyStrip (pyUpper ca)) "OPTION" = false →
        check_quiz_answer sel ca opts
          = (quizNorm sel == quizNorm (pyStrip (pyUpper ca)), pyStrip (pyUpper ca)))
    ∧ (∀ (sel : String) (opts : List String),
        check_quiz_answer sel "OPTIONX" opts = (true, sel))
    ∧ (∀ (sel ca : String) (opts : List String),
        (check_quiz_answer sel ca opts).1
          = (quizNorm sel == quizNorm (check_quiz_answer sel ca opts).2)) := by
  refine ⟨?_, ?_, ?_, ?_⟩
  · intro sel opts ds hne hdig
    constructor
    · intro hlo hhi
      rw [quiz_option_case sel opts ds hne hdig, if_pos ⟨hlo, hhi⟩]
    · intro hout
      rw [quiz_option_case sel opts ds hne hdig, if_neg (by omega)]
  · intro sel ca opts h
    simp only [check_quiz_answer, h, Bool.false_eq_true, if_false]
  · intro sel opts
    have h1 : pyStrip (pyUpper "OPTIONX") = "OPTIONX" := by decide
    have h2 : pyStartsWith "OPTIONX" "OPTION" = true := by decide
    have h3 : pyInt (pyReplaceS "OPTIONX" "OPTION") = none := by decide
    simp [check_quiz_answer, h1, h2, h3, quizNorm]
  · intro sel ca opts
    rfl

/-- C8 counterexample: with `correct_answer = "OPTION9"` and only three
options, the code falls back to the *submitted* option (here the wrong
text "nope"), judging it correct and returning it, instead of treating
"OPTION9" as literal answer text. -/
theorem quiz_check_out_of_range_cex :
    check_quiz_answer "nope" "OPTION9" ["x", "y", "z"] = (true, "nope")
    ∧ (("nope" : String) == "OPTION9") = false := by
  constructor
  · rfl
  · decide

theorem quiz_check_resolution_witness :
    check_quiz_answer "y" ⟨"OPTION".data ++ ['2']⟩ ["x", "y", "z"] = (true, "y") := by
  have h := (quiz_check_resolution.1 "y" ["x", "y", "z"] ['2'] (by decide)
    (by decide)).1 (by decide) (by decide)
  rw [h]
  decide

theorem wordOf_getItem {fav : JSON} {wa : String} (hwa : wordOf fav = some wa) :
    pyGetItem fav "Word" = .ok (.str wa) := by
  cases fav with
  | obj fields =>
    simp only [wordOf] at hwa
    cases hl : lookupField fields "Word" with
    | none => rw [hl] at hwa; exact Option.noConfusion hwa
    | some v =>
      rw [hl] at hwa
      cases v with
      | str s =>
        simp only [Option.some.injEq] at hwa
        subst hwa
        simp [pyGetItem, hl]
      | null => exact Option.noConfusion hwa
      | bool b => exact Option.noConfusion hwa
      | num n => exact Option.noConfusion hwa
      | arr xs => exact Option.noConfusion hwa
      | obj f2 => exact Option.noConfusion hwa
  | null => simp [wordOf] at hwa
  | bool b => simp [wordOf] at hwa
  | num n => simp [wordOf] at hwa
  | str s => simp [wordOf] at hwa
  | arr xs => simp [wordOf] at hwa

theorem favCheck_false :
    ∀ (favs : List JSON) (wv : JSON), favCheck favs wv = .ok false →
      ∀ fav ∈ favs, ∀ wa wb, wordOf fav = some wa → wv = .str wb →
        pyLower wa ≠ pyLower wb := by
  intro favs
  induction favs with
  | nil => intro wv h fav hfav; simp at hfav
  | cons f rest ih =>
    intro wv h fav hfav wa wb hwa hwv
    simp only [favCheck, bind, Except.bind, pure, Except.pure] at h
    cases h1 : pyGetItem f "Word" with
    | error e => simp only [h1] at h; exact Except.noConfusion h
    | ok fw =>
      simp only [h1] at h
      cases h2 : asStr fw with
      | error e => simp only [h2] at h; exact Except.noConfusion h
      | ok fs =>
        simp only [h2] at h
        cases h3 : asStr wv with
        | error e => simp only [h3] at h; exact Except.noConfusion h
        | ok ws =>
          simp only [h3] at h
          by_cases hbeq : (pyLower fs == pyLower ws) = true
          · rw [if_pos hbeq] at h
            simp at h
          · rw [if_neg hbeq] at h
            rcases List.mem_cons.mp hfav with rfl | hfav'
            · have hfw : fw = .str wa := by
                have := wordOf_getItem hwa
                rw [h1] at this
                injection this.symm with hh
                exact hh.symm
              subst hwv
              rw [hfw] at h2
              simp only [asStr, Except.ok.injEq] at h2 h3
              subst h2
              subst h3
              intro heq
              exact hbeq (by rw [heq]; exact beq_self_eq_true _)
            · exact ih wv h fav hfav' wa wb hwa hwv

theorem removeFilter_sublist :
    ∀ (favs : List JSON) (w : String) (l : List JSON),
      removeFilter favs w = .ok l → List.Sublist l favs := by
  intro favs
  induction favs with
  | nil =>
    intro w l h
    simp only [removeFilter] at h
    cases h
    exact List.Sublist.refl []
  | cons f rest ih =>
    intro w l h
    simp only [removeFilter, bind, Except.bind, pure, Except.pure] at h
    cases h1 : pyGetItem f "Word" with
    | error e => simp only [h1] at h; exact Except.noConfusion h
    | ok fw =>
      simp only [h1] at h
      cases h2 : asStr fw with
      | error e => simp only [h2] at h; exact Except.noConfusion h
      | ok fs =>
        simp only [h2] at h
        cases h3 : removeFilter rest w with
        | error e => simp only [h3] at h; exact Except.noConfusion h
        | ok tl =>
          simp only [h3] at h
          by_cases hbeq : (pyLower fs == pyLower w) = true
          · rw [if_pos hbeq] at h
            cases h
            exact (ih w _ h3).cons f
          · rw [if_neg hbeq] at h
            cases h
            exact (ih w _ h3).cons₂ f

theorem favCheck_false_wordOf {favs : List JSON} {wv wd : JSON} {wb : String}
    (hc : favCheck favs wv = .ok false)
    (hget : pyDictGet wd "Word" (.str "") = .ok wv) (hwb : wordOf wd = some wb) :
    ∀ a ∈ favs, ∀ wa, wordOf a = some wa → pyLower wa ≠ pyLower wb := by
  intro a ha wa hwa
  have hw : wv = .str wb := by
    cases wd with
    | obj fields =>
      simp only [wordOf] at hwb
      cases hl : lookupField fields "Word" with
      | none => rw [hl] at hwb; exact Option.noConfusion hwb
      | some v =>
        rw [hl] at hwb
        cases v with
        | str s =>
          simp only [Option.some.injEq] at hwb
          subst hwb
          simp only [pyDictGet, hl, Option.getD] at hget
          injection hget with hg'
          exact hg'.symm
        | null => exact Option.noConfusion hwb
        | bool x => exact Option.noConfusion hwb
        | num x => exact Option.noConfusion hwb
        | arr x => exact Option.noConfusion hwb
        | obj x => exact Option.noConfusion hwb
    | null => simp [wordOf] at hwb
    | bool x => simp [wordOf] at hwb
    | num x => simp [wordOf] at hwb
    | str x => simp [wordOf] at hwb
    | arr x => simp [wordOf] at hwb
  exact favCheck_false favs wv hc a ha wa wb hwa hw

/-- C9: every favorites operation preserves at-most-one-entry-per
case-insensitive word, and adding "Cat" then "cat" leaves exactly one
entry (the second add reports it as already present). -/
theorem favorites_case_insensitive_unique :
    (∀ (favs : List JSON) (wd : JSON), FavInv favs → FavInv (add_favorite favs wd).1)
    ∧ (∀ (favs : List JSON) (w : String), FavInv favs → FavInv (remove_favorite favs w).1)
    ∧ (∀ favs : List JSON, FavInv (clear_favorites favs).1)
    ∧ (add_favorite ((add_favorite [] (JSON.obj [("Word", .str "Cat")])).1)
          (JSON.obj [("Word", .str "cat")])).1.length = 1
    ∧ (add_favorite ((add_favorite [] (JSON.obj [("Word", .str "Cat")])).1)
          (JSON.obj [("Word", .str "cat")])).2 = .alreadyPresent := by
  refine ⟨?_, ?_, ?_, ?_, ?_⟩
  · intro favs wd hinv
    by_cases hf : pyFalsy wd = true
    · simp only [add_favorite, hf, if_true]
      exact hinv
    · cases hg : pyDictGet wd "Word" (.str "") with
      | error e =>
        simp only [add_favorite, hf, Bool.false_eq_true, if_false, hg]
        exact hinv
      | ok wv =>
        cases hc : favCheck favs wv with
        | error e =>
          simp only [add_favorite, hf, Bool.false_eq_true, if_false, hg, hc]
          exact hinv
        | ok b =>
          cases b with
          | true =>
            simp only [add_favorite, hf, Bool.false_eq_true, if_false, hg, hc]
            exact hinv
          | false =>
            simp only [add_favorite, hf, Bool.false_eq_true, if_false, hg, hc]
            show FavInv (favs ++ [wd])
            rw [FavInv, List.pairwise_append]
            refine ⟨hinv, List.pairwise_singleton _ _, ?_⟩
            intro a ha y hy wa wb hwa hwb
            rw [List.mem_singleton.mp hy] at hwb
            exact favCheck_false_wordOf hc hg hwb a ha wa hwa
  · intro favs w hinv
    cases hr : removeFilter favs w with
    | error e =>
      simp only [remove_favorite, hr]
      exact hinv
    | ok l =>
      simp only [remove_favorite, hr]
      exact hinv.sublist (removeFilter_sublist favs w l hr)
  · intro favs
    exact List.Pairwise.nil
  · rfl
  · rfl

/-- Witness for C9: the invariant holds for the empty collection and is
kept by a concrete add. -/
theorem favorites_case_insensitive_unique_witness :
    FavInv (add_favorite [] (JSON.obj [("Word", JSON.str "Cat")])).1 :=
  favorites_case_insensitive_unique.1 [] (JSON.obj [("Word", JSON.str "Cat")])
    List.Pairwise.nil

theorem any_key_eq (f : List (String × JSON)) (k : String) :
    (f.any (fun kv => kv.1 == k)) = (lookupField f k).isSome := by
  induction f with
  | nil => rfl
  | cons kv rest ih =>
    by_cases h : (kv.1 == k) = true
    · simp [List.any_cons, h, lookupField, List.find?_cons, List.find?_cons_of_pos]
    · have h' : (kv.1 == k) = false := by
        cases hb : (kv.1 == k) with
        | false => rfl
        | true => exact absurd hb h
      simp only [List.any_cons, h', Bool.false_or, lookupField, List.find?_cons, h']
      exact ih

theorem mem_true_of_lookup {f : List (String × JSON)} {k : String} {v : JSON}
    (h : lookupField f k = some v) : (f.any (fun kv => kv.1 == k)) = true := by
  rw [any_key_eq, h]; rfl

theorem mem_false_of_lookup {f : List (String × JSON)} {k : String}
    (h : lookupField f k = none) : (f.any (fun kv => kv.1 == k)) = false := by
  rw [any_key_eq, h]; rfl

theorem pyGetItem_obj {f : List (String × JSON)} {k : String} {v : JSON}
    (h : lookupField f k = some v) : pyGetItem (.obj f) k = .ok v := by
  simp [pyGetItem, h]

theorem headwordStage_ok {fields : List (String × JSON)}
    (hm : metaWF (lookupField fields "meta") = true) :
    ∃ s, headwordStage (.obj fields) = .ok s := by
  cases hl : lookupField fields "meta" with
  | none =>
    refine ⟨"", ?_⟩
    simp [headwordStage, pyMem, mem_false_of_lookup hl, bind, Except.bind, pure, Except.pure]
  | some meta =>
    rw [hl] at hm
    cases meta with
    | obj mf =>
      cases hl2 : lookupField mf "id" with
      | none =>
        refine ⟨"", ?_⟩
        simp [headwordStage, pyMem, mem_true_of_lookup hl, pyGetItem_obj hl,
          mem_false_of_lookup hl2, bind, Except.bind, pure, Except.pure]
      | some v =>
        simp only [metaWF, hl2] at hm
        cases v with
        | str s =>
          refine ⟨pyTitle ⟨s.data.takeWhile (fun c => !(c == ':'))⟩, ?_⟩
          simp [headwordStage, pyMem, mem_true_of_lookup hl, pyGetItem_obj hl,
            mem_true_of_lookup hl2, pyGetItem_obj hl2, bind, Except.bind, pure, Except.pure]
        | null => exact absurd hm (by simp [isStrB])
        | bool b => exact absurd hm (by simp [isStrB])
        | num n => exact absurd hm (by simp [isStrB])
        | arr xs => exact absurd hm (by simp [isStrB])
        | obj f2 => exact absurd hm (by simp [isStrB])
    | null => exact absurd hm (by simp [metaWF])
    | bool b => exact absurd hm (by simp [metaWF])
    | num n => exact absurd hm (by simp [metaWF])
    | str s => exact absurd hm (by simp [metaWF])
    | arr xs => exact absurd hm (by simp [metaWF])

theorem flStage_ok (fields : List (String × JSON)) :
    ∃ v, flStage (.obj fields) = .ok v := by
  cases hl : lookupField fields "fl" with
  | none =>
    refine ⟨.str "", ?_⟩
    simp [flStage, pyMem, mem_false_of_lookup hl, bind, Except.bind, pure, Except.pure]
  | some v =>
    refine ⟨v, ?_⟩
    simp [flStage, pyMem, mem_true_of_lookup hl, pyGetItem_obj hl, bind, Except.bind,
      pure, Except.pure]

theorem pronLoop_ok : ∀ (ps : List JSON), (∀ p ∈ ps, prsWF p = true) →
    ∃ l, pronLoop ps = .ok l := by
  intro ps
  induction ps with
  | nil => exact fun _ => ⟨[], rfl⟩
  | cons p rest ih =>
    intro h
    obtain ⟨tl, htl⟩ := ih (fun q hq => h q (by simp [hq]))
    have hp := h p (by simp)
    cases p with
    | obj pf =>
      cases hl : lookupField pf "mw" with
      | none =>
        refine ⟨tl, ?_⟩
        simp [pronLoop, pyMem, mem_false_of_lookup hl, bind, Except.bind, pure,
          Except.pure, htl]
      | some mw =>
        refine ⟨("/" ++ pyStrOf mw ++ "/") :: tl, ?_⟩
        simp [pronLoop, pyMem, mem_true_of_lookup hl, pyGetItem_obj hl, bind,
          Except.bind, pure, Except.pure, htl]
    | null => exact absurd hp (by simp [prsWF])
    | bool b => exact absurd hp (by simp [prsWF])
    | num n => exact absurd hp (by simp [prsWF])
    | str s => exact absurd hp (by simp [prsWF])
    | arr xs => exact absurd hp (by simp [prsWF])

theorem pronStage_ok {fields : List (String × JSON)}
    (hh : hwiWF (lookupField fields "hwi") = true) :
    ∃ s, pronStage (.obj fields) = .ok s := by
  cases hl : lookupField fields "hwi" with
  | none =>
    refine ⟨"", ?_⟩
    simp [pronStage, pyMem, mem_false_of_lookup hl, bind, Except.bind, pure, Except.pure]
  | some hwi =>
    rw [hl] at hh
    cases hwi with
    | obj hf =>
      cases hl2 : lookupField hf "prs" with
      | none =>
        refine ⟨"", ?_⟩
        simp [pronStage, pyMem, mem_true_of_lookup hl, pyGetItem_obj hl,
          mem_false_of_lookup hl2, bind, Except.bind, pure, Except.pure]
      | some prsv =>
        simp only [hwiWF, hl2] at hh
        cases prsv with
        | arr ps =>
          have hps : ∀ p ∈ ps, prsWF p = true := by
            intro p hp
            exact List.all_eq_true.mp hh p hp
          obtain ⟨l, hlp⟩ := pronLoop_ok ps hps
          refine ⟨String.intercalate ", " l, ?_⟩
          simp [pronStage, pyMem, mem_true_of_lookup hl, pyGetItem_obj hl,
            mem_true_of_lookup hl2, pyGetItem_obj hl2, pyIter, bind, Except.bind,
            pure, Except.pure, hlp]
        | null => exact absurd hh (by simp)
        | bool b => exact absurd hh (by simp)
        | num n => exact absurd hh (by simp)
        | str s => exact absurd hh (by simp)
        | obj f2 => exact absurd hh (by simp)
    | null => exact absurd hh (by simp [hwiWF])
    | bool b => exact absurd hh (by simp [hwiWF])
    | num n => exact absurd hh (by simp [hwiWF])
    | str s => exact absurd hh (by simp [hwiWF])
    | arr xs => exact absurd hh (by simp [hwiWF])

theorem etLoop_ok : ∀ (items : List JSON), (∀ it ∈ items, etItemWF it = true) →
    ∃ l, etLoop items = .ok l := by
  intro items
  induction items with
  | nil => exact fun _ => ⟨[], rfl⟩
  | cons it rest ih =>
    intro h
    obtain ⟨tl, htl⟩ := ih (fun u hu => h u (by simp [hu]))
    have hit := h it (by simp)
    cases it with
    | arr l =>
      match l with
      | [] => exact ⟨tl, by simp [etLoop, htl]⟩
      | [a] => exact ⟨tl, by simp [etLoop, htl]⟩
      | a :: b :: restl =>
        by_cases ha : (a == JSON.str "text") = true
        · simp only [etItemWF, ha, if_true] at hit
          cases b with
          | str s =>
            refine ⟨stripTagsS etymology_tags s :: tl, ?_⟩
            simp [etLoop, ha, bind, Except.bind, pure, Except.pure, htl]
          | null => exact absurd hit (by simp [isStrB])
          | bool x => exact absurd hit (by simp [isStrB])
          | num x => exact absurd hit (by simp [isStrB])
          | arr x => exact absurd hit (by simp [isStrB])
          | obj x => exact absurd hit (by simp [isStrB])
        · have ha' : (a == JSON.str "text") = false := by
            cases hb : (a == JSON.str "text") with
            | false => rfl
            | true => exact absurd hb ha
          exact ⟨tl, by simp [etLoop, ha', htl]⟩
    | null => exact ⟨tl, by simp [etLoop, htl]⟩
    | bool b => exact ⟨tl, by simp [etLoop, htl]⟩
    | num n => exact ⟨tl, by simp [etLoop, htl]⟩
    | str s => exact ⟨tl, by simp [etLoop, htl]⟩
    | obj f => exact ⟨tl, by simp [etLoop, htl]⟩

theorem etStage_ok {fields : List (String × JSON)}
    (he : etWF (lookupField fields "et") = true) :
    ∃ s, etStage (.obj fields) = .ok s := by
  cases hl : lookupField fields "et" with
  | none =>
    refine ⟨"", ?_⟩
    simp [etStage, pyMem, mem_false_of_lookup hl, bind, Except.bind, pure, Except.pure]
  | some etv =>
    rw [hl] at he
    cases etv with
    | arr items =>
      have hits : ∀ it ∈ items, etItemWF it = true := by
        intro it hit
        exact List.all_eq_true.mp (by simpa [etWF] using he) it hit
      obtain ⟨l, hlp⟩ := etLoop_ok items hits
      refine ⟨String.intercalate " " l, ?_⟩
      simp [etStage, pyMem, mem_true_of_lookup hl, pyGetItem_obj hl, pyIter, bind,
        Except.bind, pure, Except.pure, hlp]
    | null => exact absurd he (by simp [etWF])
    | bool b => exact absurd he (by simp [etWF])
    | num n => exact absurd he (by simp [etWF])
    | str s => exact absurd he (by simp [etWF])
    | obj f2 => exact absurd he (by simp [etWF])

theorem visLoop_ok : ∀ (vs : List JSON) (exs : List String),
    (∀ v ∈ vs, visWF v = true) → ∃ l, visLoop vs exs = .ok l := by
  intro vs
  induction vs with
  | nil => exact fun exs _ => ⟨exs, rfl⟩
  | cons v rest ih =>
    intro exs h
    have hv := h v (by simp)
    cases v with
    | obj vf =>
      cases hl : lookupField vf "t" with
      | none =>
        obtain ⟨l, hlp⟩ := ih exs (fun u hu => h u (by simp [hu]))
        refine ⟨l, ?_⟩
        simp [visLoop, pyMem, mem_false_of_lookup hl, bind, Except.bind, pure,
          Except.pure, hlp]
      | some tv =>
        simp only [visWF, hl] at hv
        cases tv with
        | str s =>
          obtain ⟨l, hlp⟩ := ih (exs ++ [stripTagsS example_tags s])
            (fun u hu => h u (by simp [hu]))
          refine ⟨l, ?_⟩
          simp [visLoop, pyMem, mem_true_of_lookup hl, pyGetItem_obj hl, bind,
            Except.bind, pure, Except.pure, hlp]
        | null => exact absurd hv (by simp [isStrB])
        | bool x => exact absurd hv (by simp [isStrB])
        | num x => exact absurd hv (by simp [isStrB])
        | arr x => exact absurd hv (by simp [isStrB])
        | obj x => exact absurd hv (by simp [isStrB])
    | null => exact absurd hv (by simp [visWF])
    | bool b => exact absurd hv (by simp [visWF])
    | num n => exact absurd hv (by simp [visWF])
    | str s => exact absurd hv (by simp [visWF])
    | arr xs => exact absurd hv (by simp [visWF])

theorem dtLoop_ok : ∀ (items : List JSON) (defs : List JSON) (exs : List String),
    (∀ it ∈ items, dtWF it = true) → ∃ de, dtLoop items defs exs = .ok de := by
  intro items
  induction items with
  | nil => exact fun defs exs _ => ⟨(defs, exs), rfl⟩
  | cons it rest ih =>
    intro defs exs h
    have hit := h it (by simp)
    cases it with
    | arr l =>
      match l with
      | [] => exact absurd hit (by simp [dtWF])
      | a :: restl =>
        by_cases ha : (a == JSON.str "text") = true
        · simp only [dtWF, ha, if_true] at hit
          match restl with
          | [] => exact absurd hit (by simp)
          | b :: restl2 =>
            cases b with
            | str s =>
              obtain ⟨de, hde⟩ := ih (defs ++ [.str (stripTagsS definition_tags s)]) exs
                (fun u hu => h u (by simp [hu]))
              refine ⟨de, ?_⟩
              simp [dtLoop, pyIndex, ha, bind, Except.bind, pure, Except.pure, hde]
            | null => exact absurd hit (by simp [isStrB])
            | bool x => exact absurd hit (by simp [isStrB])
            | num x => exact absurd hit (by simp [isStrB])
            | arr x => exact absurd hit (by simp [isStrB])
            | obj x => exact absurd hit (by simp [isStrB])
        · have ha' : (a == JSON.str "text") = false := Bool.eq_false_iff.mpr ha
          by_cases hv : (a == JSON.str "vis") = true
          · simp only [dtWF, ha', Bool.false_eq_true, if_false, hv, if_true] at hit
            match restl with
            | [] => exact absurd hit (by simp)
            | b :: restl2 =>
              cases b with
              | arr vs =>
                have hvs : ∀ u ∈ vs, visWF u = true := by
                  intro u hu
                  exact List.all_eq_true.mp (by simpa using hit) u hu
                obtain ⟨exs', hexs⟩ := visLoop_ok vs exs hvs
                obtain ⟨de, hde⟩ := ih defs exs' (fun u hu => h u (by simp [hu]))
                refine ⟨de, ?_⟩
                simp [dtLoop, pyIndex, ha', hv, pyIter, bind, Except.bind, pure,
                  Except.pure, hexs, hde]
              | null => exact absurd hit (by simp)
              | bool x => exact absurd hit (by simp)
              | num x => exact absurd hit (by simp)
              | str x => exact absurd hit (by simp)
              | obj x => exact absurd hit (by simp)
          · have hv' : (a == JSON.str "vis") = false := Bool.eq_false_iff.mpr hv
            obtain ⟨de, hde⟩ := ih defs exs (fun u hu => h u (by simp [hu]))
            refine ⟨de, ?_⟩
            simp [dtLoop, pyIndex, ha', hv', bind, Except.bind, pure, Except.pure, hde]
    | null => exact absurd hit (by simp [dtWF])
    | bool b => exact absurd hit (by simp [dtWF])
    | num n => exact absurd hit (by simp [dtWF])
    | str s => exact absurd hit (by simp [dtWF])
    | obj f => exact absurd hit (by simp [dtWF])

theorem sensesLoop_ok : ∀ (senses : List JSON) (defs : List JSON) (exs : List String),
    (∀ s ∈ senses, senseWF s = true) → ∃ de, sensesLoop senses defs exs = .ok de := by
  intro senses
  induction senses with
  | nil => exact fun defs exs _ => ⟨(defs, exs), rfl⟩
  | cons s rest ih =>
    intro defs exs h
    have hs := h s (by simp)
    cases s with
    | arr l =>
      match l with
      | [] =>
        obtain ⟨de, hde⟩ := ih defs exs (fun u hu => h u (by simp [hu]))
        exact ⟨de, by simpa [sensesLoop] using hde⟩
      | [a] =>
        obtain ⟨de, hde⟩ := ih defs exs (fun u hu => h u (by simp [hu]))
        exact ⟨de, by simpa [sensesLoop] using hde⟩
      | a :: sd :: restl =>
        have hsd : sdWF sd = true := by simpa [senseWF] using hs
        cases sd with
        | obj sdf =>
          cases hl : lookupField sdf "dt" with
          | none =>
            obtain ⟨de, hde⟩ := ih defs exs (fun u hu => h u (by simp [hu]))
            refine ⟨de, ?_⟩
            simp [sensesLoop, pyMem, mem_false_of_lookup hl, bind, Except.bind,
              pure, Except.pure, hde]
          | some dtv =>
            simp only [sdWF, hl] at hsd
            cases dtv with
            | arr items =>
              have hits : ∀ u ∈ items, dtWF u = true := by
                intro u hu
                exact List.all_eq_true.mp (by simpa using hsd) u hu
              obtain ⟨⟨defs', exs'⟩, hde1⟩ := dtLoop_ok items defs exs hits
              obtain ⟨de, hde⟩ := ih defs' exs' (fun u hu => h u (by simp [hu]))
              refine ⟨de, ?_⟩
              simp [sensesLoop, pyMem, mem_true_of_lookup hl, pyGetItem_obj hl,
                pyIter, bind, Except.bind, pure, Except.pure, hde1, hde]
            | null => exact absurd hsd (by simp)
            | bool x => exact absurd hsd (by simp)
            | num x => exact absurd hsd (by simp)
            | str x => exact absurd hsd (by simp)
            | obj x => exact absurd hsd (by simp)
        | null =>
          obtain ⟨de, hde⟩ := ih defs exs (fun u hu => h u (by simp [hu]))
          exact ⟨de, by simpa [sensesLoop] using hde⟩
        | bool b =>
          obtain ⟨de, hde⟩ := ih defs exs (fun u hu => h u (by simp [hu]))
          exact ⟨de, by simpa [sensesLoop] using hde⟩
        | num n =>
          obtain ⟨de, hde⟩ := ih defs exs (fun u hu => h u (by simp [hu]))
          exact ⟨de, by simpa [sensesLoop] using hde⟩
        | str s2 =>
          obtain ⟨de, hde⟩ := ih defs exs (fun u hu => h u (by simp [hu]))
          exact ⟨de, by simpa [sensesLoop] using hde⟩
        | arr x =>
          obtain ⟨de, hde⟩ := ih defs exs (fun u hu => h u (by simp [hu]))
          exact ⟨de, by simpa [sensesLoop] using hde⟩
    | null =>
      obtain ⟨de, hde⟩ := ih defs exs (fun u hu => h u (by simp [hu]))
      exact ⟨de, by simpa [sensesLoop] using hde⟩
    | bool b =>
      obtain ⟨de, hde⟩ := ih defs exs (fun u hu => h u (by simp [hu]))
      exact ⟨de, by simpa [sensesLoop] using hde⟩
    | num n =>
      obtain ⟨de, hde⟩ := ih defs exs (fun u hu => h u (by simp [hu]))
      exact ⟨de, by simpa [sensesLoop] using hde⟩
    | str s2 =>
      obtain ⟨de, hde⟩ := ih defs exs (fun u hu => h u (by simp [hu]))
      exact ⟨de, by simpa [sensesLoop] using hde⟩
    | obj f =>
      obtain ⟨de, hde⟩ := ih defs exs (fun u hu => h u (by simp [hu]))
      exact ⟨de, by simpa [sensesLoop] using hde⟩

theorem seqsLoop_ok : ∀ (seqs : List JSON) (defs : List JSON) (exs : List String),
    (∀ sq ∈ seqs, seqWF sq = true) → ∃ de, seqsLoop seqs defs exs = .ok de := by
  intro seqs
  induction seqs with
  | nil => exact fun defs exs _ => ⟨(defs, exs), rfl⟩
  | cons sq rest ih =>
    intro defs exs h
    have hsq := h sq (by simp)
    cases sq with
    | arr senses =>
      have hss : ∀ s ∈ senses, senseWF s = true := by
        intro s hs
        exact List.all_eq_true.mp (by simpa [seqWF] using hsq) s hs
      obtain ⟨⟨defs', exs'⟩, hde1⟩ := sensesLoop_ok senses defs exs hss
      obtain ⟨de, hde⟩ := ih defs' exs' (fun u hu => h u (by simp [hu]))
      refine ⟨de, ?_⟩
      simp [seqsLoop, pyIter, bind, Except.bind, pure, Except.pure, hde1, hde]
    | null => exact absurd hsq (by simp [seqWF])
    | bool b => exact absurd hsq (by simp [seqWF])
    | num n => exact absurd hsq (by simp [seqWF])
    | str s => exact absurd hsq (by simp [seqWF])
    | obj f => exact absurd hsq (by simp [seqWF])

theorem groupsLoop_ok : ∀ (gs : List JSON) (defs : List JSON) (exs : List String),
    (∀ g ∈ gs, groupWF g = true) → ∃ de, groupsLoop gs defs exs = .ok de := by
  intro gs
  induction gs with
  | nil => exact fun defs exs _ => ⟨(defs, exs), rfl⟩
  | cons g rest ih =>
    intro defs exs h
    have hg := h g (by simp)
    cases g with
    | obj gf =>
      cases hl : lookupField gf "sseq" with
      | none =>
        obtain ⟨de, hde⟩ := ih defs exs (fun u hu => h u (by simp [hu]))
        refine ⟨de, ?_⟩
        simp [groupsLoop, pyMem, mem_false_of_lookup hl, bind, Except.bind, pure,
          Except.pure, hde]
      | some sv =>
        simp only [groupWF, hl] at hg
        cases sv with
        | arr seqs =>
          have hss : ∀ sq ∈ seqs, seqWF sq = true := by
            intro sq hs
            exact List.all_eq_true.mp (by simpa using hg) sq hs
          obtain ⟨⟨defs', exs'⟩, hde1⟩ := seqsLoop_ok seqs defs exs hss
          obtain ⟨de, hde⟩ := ih defs' exs' (fun u hu => h u (by simp [hu]))
          refine ⟨de, ?_⟩
          simp [groupsLoop, pyMem, mem_true_of_lookup hl, pyGetItem_obj hl, pyIter,
            bind, Except.bind, pure, Except.pure, hde1, hde]
        | null => exact absurd hg (by simp)
        | bool x => exact absurd hg (by simp)
        | num x => exact absurd hg (by simp)
        | str x => exact absurd hg (by simp)
        | obj x => exact absurd hg (by simp)
    | null => exact absurd hg (by simp [groupWF])
    | bool b => exact absurd hg (by simp [groupWF])
    | num n => exact absurd hg (by simp [groupWF])
    | str s => exact absurd hg (by simp [groupWF])
    | arr xs => exact absurd hg (by simp [groupWF])

theorem defStage_ok {fields : List (String × JSON)}
    (hd : defWF (lookupField fields "def") = true) :
    ∃ de, defStage (.obj fields) = .ok de := by
  cases hl : lookupField fields "def" with
  | none =>
    refine ⟨([], []), ?_⟩
    simp [defStage, pyMem, mem_false_of_lookup hl, bind, Except.bind, pure, Except.pure]
  | some dv =>
    rw [hl] at hd
    cases dv with
    | arr gs =>
      have hgs : ∀ g ∈ gs, groupWF g = true := by
        intro g hg
        exact List.all_eq_true.mp (by simpa [defWF] using hd) g hg
      obtain ⟨de, hde⟩ := groupsLoop_ok gs [] [] hgs
      refine ⟨de, ?_⟩
      simp [defStage, pyMem, mem_true_of_lookup hl, pyGetItem_obj hl, pyIter, bind,
        Except.bind, pure, Except.pure, hde]
    | null => exact absurd hd (by simp [defWF])
    | bool b => exact absurd hd (by simp [defWF])
    | num n => exact absurd hd (by simp [defWF])
    | str s => exact absurd hd (by simp [defWF])
    | obj f2 => exact absurd hd (by simp [defWF])

theorem shortdefStage_ok {fields : List (String × JSON)} (defs : List JSON)
    (hs : shortdefWF (lookupField fields "shortdef") = true) :
    ∃ l, shortdefStage (.obj fields) defs = .ok l := by
  cases hl : lookupField fields "shortdef" with
  | none =>
    refine ⟨defs, ?_⟩
    simp [shortdefStage, pyMem, mem_false_of_lookup hl, bind, Except.bind, pure,
      Except.pure]
  | some sv =>
    rw [hl] at hs
    cases sv with
    | arr items =>
      refine ⟨shortLoop items defs, ?_⟩
      simp [shortdefStage, pyMem, mem_true_of_lookup hl, pyGetItem_obj hl, pyIter,
        bind, Except.bind, pure, Except.pure]
    | null => exact absurd hs (by simp [shortdefWF])
    | bool b => exact absurd hs (by simp [shortdefWF])
    | num n => exact absurd hs (by simp [shortdefWF])
    | str s => exact absurd hs (by simp [shortdefWF])
    | obj f2 => exact absurd hs (by simp [shortdefWF])

theorem processEntry_ok {entry : JSON} (h : entryWF entry = true) :
    ∃ d, processEntry entry = .ok d := by
  cases entry with
  | obj fields =>
    simp only [entryWF, Bool.and_eq_true] at h
    obtain ⟨⟨⟨⟨hm, hh⟩, he⟩, hd⟩, hs⟩ := h
    obtain ⟨hw, hhw⟩ := headwordStage_ok hm
    obtain ⟨pos, hpos⟩ := flStage_ok fields
    obtain ⟨pron, hpron⟩ := pronStage_ok hh
    obtain ⟨ety, hety⟩ := etStage_ok he
    obtain ⟨⟨defs, exs⟩, hdefs⟩ := defStage_ok hd
    obtain ⟨defs', hdefs'⟩ := shortdefStage_ok defs hs
    refine ⟨⟨hw, pos, pron, ety, defs', exs⟩, ?_⟩
    simp [processEntry, bind, Except.bind, pure, Except.pure, hhw, hpos, hpron,
      hety, hdefs, hdefs']
  | null => exact absurd h (by simp [entryWF])
  | bool b => exact absurd h (by simp [entryWF])
  | num n => exact absurd h (by simp [entryWF])
  | str s => exact absurd h (by simp [entryWF])
  | arr xs => exact absurd h (by simp [entryWF])

theorem entriesLoop_ok : ∀ (data : List JSON), (∀ e ∈ data, entryWF e = true) →
    ∃ l, entriesLoop data = .ok l := by
  intro data
  induction data with
  | nil => exact fun _ => ⟨[], rfl⟩
  | cons e rest ih =>
    intro h
    obtain ⟨d, hd⟩ := processEntry_ok (h e (by simp))
    obtain ⟨tl, htl⟩ := ih (fun u hu => h u (by simp [hu]))
    refine ⟨d :: tl, ?_⟩
    simp [entriesLoop, bind, Except.bind, pure, Except.pure, hd, htl]

theorem audioPrsLoop_ok : ∀ (ps : List JSON) {fields : List (String × JSON)},
    (∀ p ∈ ps, prsWF p = true) → metaWF (lookupField fields "meta") = true →
    ∃ l, audioPrsLoop ps (.obj fields) = .ok l := by
  intro ps
  induction ps with
  | nil => exact fun _ _ => ⟨[], rfl⟩
  | cons p rest ih =>
    intro fields h hm
    obtain ⟨tl, htl⟩ := ih (fun q hq => h q (by simp [hq])) hm
    have hp := h p (by simp)
    cases p with
    | obj pf =>
      cases hl : lookupField pf "sound" with
      | none =>
        refine ⟨tl, ?_⟩
        simp [audioPrsLoop, pyMem, mem_false_of_lookup hl, bind, Except.bind, pure,
          Except.pure, htl]
      | some sound =>
        simp only [prsWF, hl] at hp
        cases sound with
        | obj sf =>
          cases hl2 : lookupField sf "audio" with
          | none =>
            refine ⟨tl, ?_⟩
            simp [audioPrsLoop, pyMem, mem_true_of_lookup hl, pyGetItem_obj hl,
              mem_false_of_lookup hl2, bind, Except.bind, pure, Except.pure, htl]
          | some audio =>
            simp only [hl2] at hp
            cases audio with
            | str f =>
              by_cases hf : pyFalsy (.str f) = true
              · refine ⟨tl, ?_⟩
                simp [audioPrsLoop, pyMem, mem_true_of_lookup hl, pyGetItem_obj hl,
                  mem_true_of_lookup hl2, pyGetItem_obj hl2, hf, bind, Except.bind,
                  pure, Except.pure, htl]
              · have hmg : ∃ eid, (pyDictGet ((lookupField fields "meta").getD (.obj []))
                    "id" (.str "")) = .ok eid := by
                  cases hml : lookupField fields "meta" with
                  | none => exact ⟨.str "", rfl⟩
                  | some meta =>
                    rw [hml] at hm
                    cases meta with
                    | obj mf => exact ⟨(lookupField mf "id").getD (.str ""), rfl⟩
                    | null => exact absurd hm (by simp [metaWF])
                    | bool x => exact absurd hm (by simp [metaWF])
                    | num x => exact absurd hm (by simp [metaWF])
                    | str x => exact absurd hm (by simp [metaWF])
                    | arr x => exact absurd hm (by simp [metaWF])
                obtain ⟨eid, heid⟩ := hmg
                refine ⟨⟨mkAudioUrl f, f, (lookupField pf "mw").getD (.str ""), eid⟩ :: tl, ?_⟩
                have hf' : pyFalsy (.str f) = false := Bool.eq_false_iff.mpr hf
                have hmw : pyDictGet (JSON.obj pf) "mw" (.str "")
                    = .ok ((lookupField pf "mw").getD (.str "")) := rfl
                have hmeta : pyDictGet (JSON.obj fields) "meta" (.obj [])
                    = .ok ((lookupField fields "meta").getD (.obj [])) := rfl
                simp [audioPrsLoop, pyMem, mem_true_of_lookup hl, pyGetItem_obj hl,
                  mem_true_of_lookup hl2, pyGetItem_obj hl2, hf', hmw, hmeta, heid, bind,
                  Except.bind, pure, Except.pure, htl]
            | null => exact absurd hp (by simp [isStrB])
            | bool x => exact absurd hp (by simp [isStrB])
            | num x => exact absurd hp (by simp [isStrB])
            | arr x => exact absurd hp (by simp [isStrB])
            | obj x => exact absurd hp (by simp [isStrB])
        | null => exact absurd hp (by simp)
        | bool x => exact absurd hp (by simp)
        | num x => exact absurd hp (by simp)
        | str x => exact absurd hp (by simp)
        | arr x => exact absurd hp (by simp)
    | null => exact absurd hp (by simp [prsWF])
    | bool b => exact absurd hp (by simp [prsWF])
    | num n => exact absurd hp (by simp [prsWF])
    | str s => exact absurd hp (by simp [prsWF])
    | arr xs => exact absurd hp (by simp [prsWF])

theorem entryAudio_ok {entry : JSON} (h : entryWF entry = true) :
    ∃ l, entryAudio entry = .ok l := by
  cases entry with
  | obj fields =>
    simp only [entryWF, Bool.and_eq_true] at h
    obtain ⟨⟨⟨⟨hm, hh⟩, _⟩, _⟩, _⟩ := h
    cases hl : lookupField fields "hwi" with
    | none =>
      refine ⟨[], ?_⟩
      simp [entryAudio, pyMem, mem_false_of_lookup hl, bind, Except.bind, pure,
        Except.pure]
    | some hwi =>
      rw [hl] at hh
      cases hwi with
      | obj hf =>
        cases hl2 : lookupField hf "prs" with
        | none =>
          refine ⟨[], ?_⟩
          simp [entryAudio, pyMem, mem_true_of_lookup hl, pyGetItem_obj hl,
            mem_false_of_lookup hl2, bind, Except.bind, pure, Except.pure]
        | some prsv =>
          simp only [hwiWF, hl2] at hh
          cases prsv with
          | arr ps =>
            have hps : ∀ p ∈ ps, prsWF p = true := by
              intro p hp
              exact List.all_eq_true.mp (by simpa using hh) p hp
            obtain ⟨l, hlp⟩ := audioPrsLoop_ok ps hps hm
            refine ⟨l, ?_⟩
            simp [entryAudio, pyMem, mem_true_of_lookup hl, pyGetItem_obj hl,
              mem_true_of_lookup hl2, pyGetItem_obj hl2, pyIter, bind, Except.bind,
              pure, Except.pure, hlp]
          | null => exact absurd hh (by simp)
          | bool x => exact absurd hh (by simp)
          | num x => exact absurd hh (by simp)
          | str x => exact absurd hh (by simp)
          | obj x => exact absurd hh (by simp)
      | null => exact absurd hh (by simp [hwiWF])
      | bool b => exact absurd hh (by simp [hwiWF])
      | num n => exact absurd hh (by simp [hwiWF])
      | str s => exact absurd hh (by simp [hwiWF])
      | arr xs => exact absurd hh (by simp [hwiWF])
  | null => exact absurd h (by simp [entryWF])
  | bool b => exact absurd h (by simp [entryWF])
  | num n => exact absurd h (by simp [entryWF])
  | str s => exact absurd h (by simp [entryWF])
  | arr xs => exact absurd h (by simp [entryWF])

theorem audioEntriesLoop_ok : ∀ (data : List JSON), (∀ e ∈ data, entryWF e = true) →
    ∃ l, audioEntriesLoop data = .ok l := by
  intro data
  induction data with
  | nil => exact fun _ => ⟨[], rfl⟩
  | cons e rest ih =>
    intro h
    obtain ⟨a, ha⟩ := entryAudio_ok (h e (by simp))
    obtain ⟨tl, htl⟩ := ih (fun u hu => h u (by simp [hu]))
    refine ⟨a ++ tl, ?_⟩
    simp [audioEntriesLoop, bind, Except.bind, pure, Except.pure, ha, htl]

theorem extract_audio_ok {data : List JSON} (h : ∀ e ∈ data, entryWF e = true) :
    ∃ l, extract_audio_info_from_api_response data = .ok l := by
  cases data with
  | nil => exact ⟨[], rfl⟩
  | cons e rest => exact audioEntriesLoop_ok (e :: rest) h

/-- C1 (amended): on response lists whose entries are objects with
vendor-shaped fields wherever the fields are present (`entryWF`), the
parser never raises: absent keys degrade to the empty-string/empty-list
defaults, as the all-defaults record produced for a keyless entry shows. -/
theorem dict_parser_best_effort :
    (∀ (data : List JSON) (word : String), (∀ e ∈ data, entryWF e = true) →
      ∃ r, process_dictionary_response data word = .ok r)
    ∧ (∀ word : String, process_dictionary_response [JSON.obj []] word
        = .ok ⟨pyTitle word, [⟨"", .str "", "", "", [], []⟩],
               some ⟨.str "", .str "", "", ""⟩, []⟩) := by
  constructor
  · intro data word h
    cases data with
    | nil => exact ⟨⟨pyTitle word, [], none, []⟩, rfl⟩
    | cons e rest =>
      obtain ⟨entries, hent⟩ := entriesLoop_ok (e :: rest) h
      obtain ⟨audio, haud⟩ := extract_audio_ok h
      cases entries with
      | nil =>
        refine ⟨⟨pyTitle word, [], none, audio⟩, ?_⟩
        simp [process_dictionary_response, bind, Except.bind, pure, Except.pure,
          hent, haud]
      | cons first others =>
        refine ⟨⟨(if first.headword == "" then pyTitle word else first.headword),
          first :: others,
          some ⟨first.part_of_speech, first.definitions.headD (.str ""),
            first.examples.headD "", first.pronunciation⟩, audio⟩, ?_⟩
        simp only [process_dictionary_response, bind, Except.bind, pure, Except.pure,
          hent, haud]
  · intro word
    rfl

/-- C1 counterexample: a response list with a wrong-typed entry (here the
number 5, on which `"meta" in entry` raises `TypeError`) makes
`process_dictionary_response` raise, and `get_dictionary_data` turns that
raise into an `api_error` that fails the whole lookup. -/
theorem dict_parser_raises_cex :
    process_dictionary_response [JSON.num 5] "cat" = .error ()
    ∧ get_dictionary_data (.resp 200 (.ok (.arr [.num 5]))) "cat" = .apiError "cat" :=
  ⟨rfl, rfl⟩

/-- Witness for C1 at a concrete well-formed entry. -/
theorem dict_parser_best_effort_witness :
    ∃ r, process_dictionary_response [JSON.obj [("fl", JSON.str "noun")]] "cat" = .ok r :=
  dict_parser_best_effort.1 [JSON.obj [("fl", JSON.str "noun")]] "cat"
    (by intro e he; rcases List.mem_singleton.mp he with rfl; decide)
